import Mathlib

/-!
# browser-homepage: a verification development of `main.go`

The program authenticates against the calendar API, fetches the next events,
reformats their start times, computes a time-of-day label and serves one page.

The file first embeds the parts of Go's `time` package that `main.go` calls
(`time.Parse` with the layout `2006-01-02T15:04:05-07:00`, `Time.Format` with
the layout `Mon, Jan _2 15:04`, `Time.Clock`), then the code of `main.go`
itself, and then states and proves the properties.

Modelling decisions:

* Go strings are byte sequences.  They are modelled as lists of characters;
  every test the parser makes is against an ASCII digit or an ASCII literal, so
  a string is accepted by the byte-level parser exactly when it is accepted here.
* `time.Parse` follows `parse` in `time/format.go` of the recent releases of
  Go: a fractional second in the input is accepted after `.` or `,` although
  the layout has none, a one-digit hour is accepted, and an offset with hours
  above 24 or minutes above 60 is rejected.  The text of a `ParseError` is not
  modelled, only whether there is one.
* The calendar arithmetic (`Date`, `absDate`, `absClock`, `absWeekday`,
  `daysSinceEpoch`) follows `time/time.go` in the form that counts 400-, 100-
  and 4-year cycles from the absolute epoch, with the conversions between
  `int64` and `uint64` where they wrap.
* The zone database of the machine is a parameter: `localOffset` gives the
  offset of the local zone, in seconds east of UTC, at every Unix instant.
* Files, console, network and clock are the answers of a `World`; what the
  process does to them is recorded in a list of `Effect`s.
* Requests are handled one after the other; overlapping requests are outside
  this embedding.
-/

namespace Homepage

/-! ## Go `time`: constants -/

def secondsPerMinute : Nat := 60
def secondsPerHour : Nat := 60 * secondsPerMinute
def secondsPerDay : Nat := 24 * secondsPerHour
def secondsPerWeek : Nat := 7 * secondsPerDay
def daysPer400Years : Nat := 365 * 400 + 97
def daysPer100Years : Nat := 365 * 100 + 24
def daysPer4Years : Nat := 365 * 4 + 1

/-- The unsigned zero year for internal calculations (1 mod 400). -/
def absoluteZeroYear : Int := -292277022399

/-- The year of the zero Time. -/
def internalYear : Int := 1

/-- Go: `(absoluteZeroYear - internalYear) * 365.2425 * secondsPerDay`. -/
def absoluteToInternal : Int :=
  (absoluteZeroYear - internalYear) * ((3652425 * (secondsPerDay : Int)) / 10000)

def internalToAbsolute : Int := -absoluteToInternal

def unixToInternal : Int :=
  (1969 * 365 + 1969 / 4 - 1969 / 100 + 1969 / 400) * (secondsPerDay : Int)

def internalToUnix : Int := -unixToInternal

/-- Conversion of a mathematical integer to Go's `int64` (two's complement wrap). -/
def toInt64 (x : Int) : Int := (x + 9223372036854775808) % 18446744073709551616 - 9223372036854775808

/-- Conversion of a mathematical integer to Go's `uint64`. -/
def toUint64 (x : Int) : Nat := (x % 18446744073709551616).toNat

/-! ## Go `time`: locations and times -/

/-- The locations a parsed time can carry: UTC, the process's local zone, or a
fixed zone made by `FixedZone` with an offset in seconds east of UTC. -/
inductive Location where
  | utc
  | localZone
  | fixed (offset : Int)
  deriving DecidableEq, Repr

/-- Go: `(*Location).lookup`, the offset in effect at a Unix instant.  The zone
database of the machine is not part of the program: `localOffset` gives the
offset of the local zone at every instant. -/
def Location.lookup (localOffset : Int → Int) : Location → Int → Int
  | .utc, _ => 0
  | .localZone, sec => localOffset sec
  | .fixed offset, _ => offset

/-- Go: `time.Time` without a monotonic reading: `wall` holds the nanoseconds,
`ext` the seconds since January 1 of year 1, `loc` the location (`nil` is UTC). -/
structure Time where
  nsec : Nat
  ext : Int
  loc : Location
  deriving DecidableEq, Repr

/-- Go: the zero value `Time{}`. -/
def Time.zero : Time := { nsec := 0, ext := 0, loc := .utc }

/-- Go: `(*Time).unixSec`. -/
def Time.unixSec (t : Time) : Int := toInt64 (t.ext + internalToUnix)

/-- Go: `unixTime(sec, nsec)`, before `setLoc`. -/
def unixTime (sec : Int) (nsec : Nat) : Time :=
  { nsec := nsec, ext := toInt64 (sec + unixToInternal), loc := .localZone }

/-- Go: `(*Time).setLoc`. -/
def Time.setLoc (t : Time) (loc : Location) : Time := { t with loc := loc }

/-- Go: `(*Time).addSec`, with its saturation on overflow. -/
def Time.addSec (t : Time) (d : Int) : Time :=
  let sum := toInt64 (t.ext + d)
  if decide (sum > t.ext) = decide (d > 0) then { t with ext := sum }
  else if d > 0 then { t with ext := 9223372036854775807 }
  else { t with ext := -9223372036854775807 }

/-- Go: `Time.abs`, the time as an absolute time adjusted by the zone offset. -/
def Time.abs (localOffset : Int → Int) (t : Time) : Nat :=
  let sec := t.unixSec
  let sec := toInt64 (sec + t.loc.lookup localOffset sec)
  toUint64 (toInt64 (sec + (unixToInternal + internalToAbsolute)))

/-! ## Go `time`: calendar arithmetic -/

/-- Go: `isLeap`.  The tests are tests for a zero remainder, which truncated and
floored remainders agree on. -/
def isLeap (year : Int) : Bool :=
  year % 4 == 0 && (year % 100 != 0 || year % 400 == 0)

/-- Go: the table `daysBefore`: `daysBefore[m]` counts the days in a non-leap
year before month `m + 1`. -/
def daysBefore : Nat → Nat
  | 0 => 0
  | 1 => 31
  | 2 => 31 + 28
  | 3 => 31 + 28 + 31
  | 4 => 31 + 28 + 31 + 30
  | 5 => 31 + 28 + 31 + 30 + 31
  | 6 => 31 + 28 + 31 + 30 + 31 + 30
  | 7 => 31 + 28 + 31 + 30 + 31 + 30 + 31
  | 8 => 31 + 28 + 31 + 30 + 31 + 30 + 31 + 31
  | 9 => 31 + 28 + 31 + 30 + 31 + 30 + 31 + 31 + 30
  | 10 => 31 + 28 + 31 + 30 + 31 + 30 + 31 + 31 + 30 + 31
  | 11 => 31 + 28 + 31 + 30 + 31 + 30 + 31 + 31 + 30 + 31 + 30
  | _ => 31 + 28 + 31 + 30 + 31 + 30 + 31 + 31 + 30 + 31 + 30 + 31

/-- Go: `daysIn`. -/
def daysIn (m : Nat) (year : Int) : Nat :=
  if m = 2 && isLeap year then 29 else daysBefore m - daysBefore (m - 1)

/-- Go: `norm`, which brings `lo` into `[0, base)` and carries into `hi`. -/
def norm (hi lo base : Int) : Int × Int :=
  let (hi, lo) :=
    if lo < 0 then
      let n := Int.tdiv (-lo - 1) base + 1
      (hi - n, lo + n * base)
    else (hi, lo)
  if lo ≥ base then
    let n := Int.tdiv lo base
    (hi + n, lo - n * base)
  else (hi, lo)

/-- Go: `daysSinceEpoch`, the days from the absolute epoch to January 1 of
`year`. -/
def daysSinceEpoch (year : Int) : Nat :=
  let y := toUint64 (year - absoluteZeroYear)
  let n := y / 400
  let y := y - 400 * n
  let d := daysPer400Years * n
  let n := y / 100
  let y := y - 100 * n
  let d := d + daysPer100Years * n
  let n := y / 4
  let y := y - 4 * n
  let d := d + daysPer4Years * n
  let n := y
  d + 365 * n

/-- Go: `Date`, for a location whose offset is zero (`Parse` builds every time
in UTC, and shifts it afterwards).  The conversions between `int` and `uint64`
and the sum that passes `2^63` are reduced as in Go; the other sums and
products stay far below `2^64` for the four-digit years `Parse` can read. -/
def DateUTC (year month day hour min sec nsec : Int) : Time :=
  let m := month - 1
  let (year, m) := norm year m 12
  let month := m + 1
  let (sec, nsec) := norm sec nsec 1000000000
  let (min, sec) := norm min sec 60
  let (hour, min) := norm hour min 60
  let (day, hour) := norm day hour 24
  let d := daysSinceEpoch year
  let d := d + daysBefore (month - 1).toNat
  let d := if isLeap year && month ≥ 3 then d + 1 else d
  let d := toUint64 ((d : Int) + (day - 1))
  let abs := d * secondsPerDay
  let abs := toUint64 ((abs : Int) + (hour * secondsPerHour + min * secondsPerMinute + sec))
  let unix := toInt64 (toInt64 abs + (absoluteToInternal + internalToUnix))
  (unixTime unix nsec.toNat).setLoc .utc

/-- Go: `absWeekday`; Sunday is 0.  January 1 of the absolute year was a Monday. -/
def absWeekday (abs : Nat) : Nat :=
  let sec := (abs + 1 * secondsPerDay) % secondsPerWeek
  sec / secondsPerDay

/-- Go: `absClock`. -/
def absClock (abs : Nat) : Nat × Nat × Nat :=
  let sec := abs % secondsPerDay
  let hour := sec / secondsPerHour
  let sec := sec - hour * secondsPerHour
  let min := sec / secondsPerMinute
  let sec := sec - min * secondsPerMinute
  (hour, min, sec)

/-- Go: `absDate` with `full = true`: year, month (January is 1), day of the
month and day of the year (from 0). -/
def absDate (abs : Nat) : Int × Nat × Nat × Nat :=
  let d := abs / secondsPerDay
  let n := d / daysPer400Years
  let y := 400 * n
  let d := d - daysPer400Years * n
  let n := d / daysPer100Years
  let n := n - n / 4
  let y := y + 100 * n
  let d := d - daysPer100Years * n
  let n := d / daysPer4Years
  let y := y + 4 * n
  let d := d - daysPer4Years * n
  let n := d / 365
  let n := n - n / 4
  let y := y + n
  let d := d - 365 * n
  let year : Int := toInt64 ((y : Int) + absoluteZeroYear)
  let yday := d
  let day := yday
  if isLeap year && day = 31 + 29 - 1 then (year, 2, 29, yday)
  else
    let day := if isLeap year && day > 31 + 29 - 1 then day - 1 else day
    let month := day / 31
    let fin := daysBefore (month + 1)
    if day ≥ fin then (year, month + 1 + 1, day - fin + 1, yday)
    else (year, month + 1, day - daysBefore month + 1, yday)

/-! ## Go `time`: parsing with the layout `2006-01-02T15:04:05-07:00` -/

/-- Go: `isDigit`, whether `s[i]` is in range and is a decimal digit. -/
def isDigit (s : List Char) (i : Nat) : Bool :=
  match s.drop i with
  | [] => false
  | c :: _ => decide ('0'.toNat ≤ c.toNat) && decide (c.toNat ≤ '9'.toNat)

/-- Go: `int(s[i] - '0')` for a byte known to be a digit. -/
def digitVal (c : Char) : Int := ((c.toNat - '0'.toNat : Nat) : Int)

/-- Go: `getnum`, which reads a one- or two-digit number; with `fixed` the
number must have two digits.  `none` is `errBad`. -/
def getnum (s : List Char) (fixed : Bool) : Option (Int × List Char) :=
  if !isDigit s 0 then none
  else if !isDigit s 1 then
    if fixed then none
    else
      match s with
      | c0 :: rest => some (digitVal c0, rest)
      | [] => none
  else
    match s with
    | c0 :: c1 :: rest => some (digitVal c0 * 10 + digitVal c1, rest)
    | _ => none

/-- Go: `leadingInt`, which consumes the leading digits of `s`; `x` is the
value read so far.  `none` is `errLeadingInt`. -/
def leadingInt (x : Nat) : List Char → Option (Nat × List Char)
  | [] => some (x, [])
  | c :: rest =>
    if c.toNat < '0'.toNat || c.toNat > '9'.toNat then some (x, c :: rest)
    else if x > 9223372036854775808 / 10 then none
    else
      let x := x * 10 + c.toNat - '0'.toNat
      if x > 9223372036854775808 then none
      else leadingInt x rest

/-- Go: `atoi`.  `none` is `errAtoi`. -/
def atoi (s : List Char) : Option Int :=
  let (neg, s) :=
    match s with
    | c :: rest => if c = '-' || c = '+' then (decide (c = '-'), rest) else (false, s)
    | [] => (false, s)
  match leadingInt 0 s with
  | some (q, []) => some (if neg then -(toInt64 q) else toInt64 q)
  | _ => none

/-- Go: `cutspace`. -/
def cutspace (s : List Char) : List Char := s.dropWhile (fun c => c = ' ')

/-- Go: the loop of `skip`; every round removes at least one byte of the
layout text `pfx`, so `pfx.length` rounds are enough. -/
def skipLoop : Nat → List Char → List Char → Option (List Char)
  | 0, value, _ => some value
  | fuel + 1, value, pfx =>
    match pfx with
    | [] => some value
    | p :: ps =>
      if p = ' ' then
        match value with
        | v :: _ =>
          if v ≠ ' ' then none else skipLoop fuel (cutspace value) (cutspace pfx)
        | [] => skipLoop fuel (cutspace value) (cutspace pfx)
      else
        match value with
        | [] => none
        | v :: vs => if v ≠ p then none else skipLoop fuel vs ps

/-- Go: `skip`, which removes the layout text `pfx` from the front of `value`.
`none` is `errBad`. -/
def skip (value pfx : List Char) : Option (List Char) := skipLoop pfx.length value pfx

/-- Go: `commaOrPeriod`. -/
def commaOrPeriod (c : Char) : Bool := c = '.' || c = ','

/-- Go: the loop `for ; n < len(value) && isDigit(value, n); n++` in `parse`,
counted over the bytes left from position `n` on. -/
def digitRun : List Char → Nat
  | [] => 0
  | c :: rest => if isDigit [c] 0 then digitRun rest + 1 else 0

/-- Go: `parseNanoseconds(value, nbytes)`; `value` starts with the separator. -/
def parseNanoseconds (value : List Char) (nbytes : Nat) : Option Int :=
  match value with
  | [] => none
  | c :: _ =>
    if !commaOrPeriod c then none
    else
      let (value, nbytes) := if nbytes > 10 then (value.take 10, 10) else (value, nbytes)
      match atoi ((value.take nbytes).drop 1) with
      | none => none
      | some ns =>
        if ns < 0 then none
        else
          let scaleDigits := 10 - nbytes
          some (ns * (10 : Int) ^ scaleDigits)

/-- The elements of the layout `2006-01-02T15:04:05-07:00`, as `nextStdChunk`
names them. -/
inductive ParseStd where
  | stdLongYear
  | stdZeroMonth
  | stdZeroDay
  | stdHour
  | stdZeroMinute
  | stdZeroSecond
  | stdNumColonTZ
  deriving DecidableEq, Repr

/-- Go: the variables of `parse` holding the time being constructed. -/
structure ParseState where
  year : Int := 0
  month : Int := -1
  day : Int := -1
  hour : Int := 0
  min : Int := 0
  sec : Int := 0
  nsec : Int := 0
  zoneOffset : Int := -1
  deriving DecidableEq, Repr

/-- Go: one case of the `switch std & stdMask` in `parse`, followed by the two
error tests that end the round.  `none` is the return of `Time{}` with a
`ParseError`. -/
def parseChunk (std : ParseStd) (st : ParseState) (value : List Char) :
    Option (ParseState × List Char) :=
  match std with
  | .stdLongYear =>
    if value.length < 4 || !isDigit value 0 then none
    else
      match atoi (value.take 4) with
      | none => none
      | some year => some ({ st with year := year }, value.drop 4)
  | .stdZeroMonth =>
    match getnum value true with
    | none => none
    | some (month, value) =>
      if month ≤ 0 || 12 < month then none
      else some ({ st with month := month }, value)
  | .stdZeroDay =>
    match getnum value true with
    | none => none
    | some (day, value) => some ({ st with day := day }, value)
  | .stdHour =>
    match getnum value false with
    | none => none
    | some (hour, value) =>
      if hour < 0 || 24 ≤ hour then none
      else some ({ st with hour := hour }, value)
  | .stdZeroMinute =>
    match getnum value true with
    | none => none
    | some (min, value) =>
      if min < 0 || 60 ≤ min then none
      else some ({ st with min := min }, value)
  | .stdZeroSecond =>
    match getnum value true with
    | none => none
    | some (sec, value) =>
      if sec < 0 || 60 ≤ sec then none
      else
        match value with
        | c0 :: c1 :: rest =>
          if commaOrPeriod c0 && isDigit value 1 then
            -- the layout has no fractional second, the input has one
            let n := 2 + digitRun rest
            match parseNanoseconds value n with
            | none => none
            | some nsec => some ({ st with sec := sec, nsec := nsec }, value.drop n)
          else some ({ st with sec := sec }, c0 :: c1 :: rest)
        | _ => some ({ st with sec := sec }, value)
  | .stdNumColonTZ =>
    if value.length < 6 then none
    else if (value.drop 3).head? ≠ some ':' then none
    else
      let sign := value.take 1
      let hour := (value.drop 1).take 2
      let min := (value.drop 4).take 2
      let value := value.drop 6
      match getnum hour true with
      | none => none
      | some (hr, _) =>
        match getnum min true with
        | none => none
        | some (mm, _) =>
          if hr > 24 || mm > 60 then none
          else
            let zoneOffset := (hr * 60 + mm) * 60 + 0
            if sign = ['+'] then some ({ st with zoneOffset := zoneOffset }, value)
            else if sign = ['-'] then some ({ st with zoneOffset := -zoneOffset }, value)
            else none

/-- Go: the `for` loop of `parse`, over the elements of the layout with the
literal text before each, and `rest`, the literal text after the last one. -/
def parseLoop : List (List Char × ParseStd) → List Char → ParseState → List Char →
    Option ParseState
  | [], rest, st, value =>
    match skip value rest with
    | none => none
    | some value => if value.length ≠ 0 then none else some st
  | (pfx, std) :: chunks, rest, st, value =>
    match skip value pfx with
    | none => none
    | some value =>
      match parseChunk std st value with
      | none => none
      | some (st, value) => parseLoop chunks rest st value

/-- Go: what `nextStdChunk` cuts the layout `2006-01-02T15:04:05-07:00` into. -/
def initialLayout : List (List Char × ParseStd) :=
  [("".toList, .stdLongYear), ("-".toList, .stdZeroMonth), ("-".toList, .stdZeroDay),
   ("T".toList, .stdHour), (":".toList, .stdZeroMinute), (":".toList, .stdZeroSecond),
   ("".toList, .stdNumColonTZ)]

/-- Go: the end of `parse`, after the loop: the day is validated against the
month and the time is built, in the local zone when its offset at that instant is
the parsed one and in a fixed zone otherwise. -/
def parseFinish (localOffset : Int → Int) (st : ParseState) : Option Time :=
  let month := if st.month < 0 then 1 else st.month
  let day := if st.day < 0 then 1 else st.day
  if day < 1 || day > daysIn month.toNat st.year then none
  else if st.zoneOffset ≠ -1 then
    let t := DateUTC st.year month day st.hour st.min st.sec st.nsec
    let t := t.addSec (-st.zoneOffset)
    let offset := Location.lookup localOffset .localZone t.unixSec
    if offset = st.zoneOffset then some (t.setLoc .localZone)
    else some (t.setLoc (.fixed st.zoneOffset))
  else some (DateUTC st.year month day st.hour st.min st.sec st.nsec)

/-- Go: `parse(layout, value, UTC, Local)` for the layout of `main.go`. -/
def parse (localOffset : Int → Int) (value : List Char) : Option Time :=
  match parseLoop initialLayout [] {} value with
  | none => none
  | some st => parseFinish localOffset st

/-- The error value of `time.Parse`; its text is not modelled. -/
inductive ParseError where
  | mk
  deriving DecidableEq, Repr

/-- Go: `time.Parse("2006-01-02T15:04:05-07:00", value)`, with both results:
every failing return of `parse` gives `Time{}` together with the error. -/
def Parse (localOffset : Int → Int) (value : String) : Time × Option ParseError :=
  match parse localOffset value.toList with
  | some t => (t, none)
  | none => (Time.zero, some .mk)

/-! ## Go `time`: formatting with the layout `Mon, Jan _2 15:04` -/

def longDayNames : List String :=
  ["Sunday", "Monday", "Tuesday", "Wednesday", "Thursday", "Friday", "Saturday"]

def longMonthNames : List String :=
  ["January", "February", "March", "April", "May", "June", "July", "August",
   "September", "October", "November", "December"]

/-- Go: the digit loop of `appendInt`, which fills a buffer of 20 bytes from
the right. -/
def appendIntDigits : Nat → Nat → List Char → List Char
  | 0, _, buf => buf
  | fuel + 1, u, buf =>
    if u ≥ 10 then appendIntDigits fuel (u / 10) (Char.ofNat ('0'.toNat + (u - (u / 10) * 10)) :: buf)
    else Char.ofNat ('0'.toNat + u) :: buf

/-- Go: `appendInt(b, x, width)`: the decimal form of `x`, zero-padded. -/
def appendInt (b : List Char) (x : Int) (width : Nat) : List Char :=
  let b := if x < 0 then b ++ ['-'] else b
  let u := x.natAbs
  let buf := appendIntDigits 20 u []
  b ++ List.replicate (width - buf.length) '0' ++ buf

/-- The elements of the layout `Mon, Jan _2 15:04`, as `nextStdChunk` names
them. -/
inductive FormatStd where
  | stdWeekDay
  | stdMonth
  | stdUnderDay
  | stdHour
  | stdZeroMinute
  deriving DecidableEq, Repr

/-- Go: what `nextStdChunk` cuts the layout `Mon, Jan _2 15:04` into. -/
def finalLayout : List (List Char × FormatStd) :=
  [("".toList, .stdWeekDay), (", ".toList, .stdMonth), (" ".toList, .stdUnderDay),
   (" ".toList, .stdHour), (":".toList, .stdZeroMinute)]

/-- Go: one case of the `switch std & stdMask` in `appendFormat`. -/
def formatChunk (abs : Nat) (std : FormatStd) (b : List Char) : List Char :=
  let (_, month, day, _) := absDate abs
  let (hour, min, _) := absClock abs
  match std with
  | .stdWeekDay => b ++ ((longDayNames.getD (absWeekday abs) "").toList.take 3)
  | .stdMonth => b ++ ((longMonthNames.getD (month - 1) "").toList.take 3)
  | .stdUnderDay =>
    let b := if day < 10 then b ++ [' '] else b
    appendInt b day 0
  | .stdHour => appendInt b hour 2
  | .stdZeroMinute => appendInt b min 2

/-- Go: the loop of `appendFormat`: the literal text before each element is
copied and the element is rendered. -/
def formatLoop (abs : Nat) : List (List Char × FormatStd) → List Char → List Char
  | [], b => b
  | (pfx, std) :: chunks, b => formatLoop abs chunks (formatChunk abs std (b ++ pfx))

/-- Go: `t.Format("Mon, Jan _2 15:04")`. -/
def Time.Format (localOffset : Int → Int) (t : Time) : String :=
  String.mk (formatLoop (t.abs localOffset) finalLayout [])

/-- Go: `t.Clock()`. -/
def Time.Clock (localOffset : Int → Int) (t : Time) : Nat × Nat × Nat :=
  absClock (t.abs localOffset)

/-! ## main.go: data model -/

/-- Event : a calendar event to display on page. -/
structure Event where
  Summary : String
  Date : String
  deriving DecidableEq, Repr

/-- Welcome : name and time to display on page. -/
structure Welcome where
  TimeOfDay : String
  Name : String
  Time : String
  Events : List Event
  deriving DecidableEq, Repr

/-- The field of `calendar.EventDateTime` that `main` reads. -/
structure EventDateTime where
  DateTime : String
  deriving DecidableEq, Repr

/-- The fields of `calendar.Event` that `main` reads. -/
structure CalendarEvent where
  Summary : String
  Start : EventDateTime
  deriving DecidableEq, Repr

/-! ## main.go: the event formatter (lines 124-147) -/

/-- The body of the loop `for _, item := range events.Items`: an item with an
empty start `DateTime` is skipped by `continue`; otherwise the start is parsed,
an error is only printed, and the time object is formatted and appended. -/
def formatItem (localOffset : Int → Int) (eventsStruct : List Event) (item : CalendarEvent) :
    List Event :=
  let date := item.Start.DateTime
  if date = "" then eventsStruct
  else
    let (timeObj, _) := Parse localOffset date
    let date := timeObj.Format localOffset
    eventsStruct ++ [{ Summary := item.Summary, Date := date }]

/-- Lines 124-147 of `main`: `eventsStruct` after the `if`/`else` over
`events.Items`. -/
def formatEvents (localOffset : Int → Int) (items : List CalendarEvent) : List Event :=
  if items.length = 0 then []
  else items.foldl (formatItem localOffset) []

/-! ## main.go: the time-of-day label (lines 149-159) -/

/-- Lines 152-159 of `main`: the label for the hour of `now.Clock()`. -/
def timeOfDay (hour : Int) : String :=
  if hour ≥ 2 && hour < 12 then "morning"
  else if hour ≥ 12 && hour < 18 then "afternoon"
  else "evening"

/-- Line 162 of `main`: the display record built at startup from the current
time and the items the calendar query returned. -/
def buildWelcome (localOffset : Int → Int) (now : Time) (items : List CalendarEvent) : Welcome :=
  let eventsStruct := formatEvents localOffset items
  let (hour, _, _) := now.Clock localOffset
  { TimeOfDay := timeOfDay hour, Name := "Mackenzie", Time := now.Format localOffset,
    Events := eventsStruct }

/-! ## main.go: the handler of the root route (lines 172-182) -/

/-- The part of `http.Request` the handler reads: the parsed form values. -/
structure Request where
  form : List (String × String)
  deriving DecidableEq, Repr

/-- Go: `r.FormValue(key)`: the first value for the key, or the empty string. -/
def Request.FormValue (r : Request) (key : String) : String :=
  (r.form.lookup key).getD ""

/-- What one call of the handler produces: the record handed to
`ExecuteTemplate`, and the status and body that reach the client. -/
structure Response where
  data : Welcome
  status : Nat
  body : String
  deriving DecidableEq, Repr

/-- What `templates.ExecuteTemplate` does with a record: the data of its calls
of `Write` on the response, in order, and its error, if it returns one.  The
template file is not part of the code. -/
structure Rendering where
  written : List String
  err : Option String
  deriving DecidableEq, Repr

/-- Lines 172-182: the handler, as a step on the shared variable `welcome`.
Without an error the client gets status 200 and what was written.  With an
error `http.Error` sets status 500 and writes the error text and a newline; the
status is still 200 when the template had already written to the response. -/
def handler (execute : Welcome → Rendering) (welcome : Welcome) (r : Request) :
    Welcome × Response :=
  let name := r.FormValue "name"
  let welcome := if name ≠ "" then { welcome with Name := name } else welcome
  let out := execute welcome
  match out.err with
  | none => (welcome, { data := welcome, status := 200, body := String.join out.written })
  | some err =>
    (welcome, { data := welcome, status := if out.written.isEmpty then 500 else 200,
                body := String.join out.written ++ err ++ "\n" })

/-- Requests handled one after the other: the final value of `welcome` and the
responses in order. -/
def serve (execute : Welcome → Rendering) :
    Welcome → List Request → Welcome × List Response
  | welcome, [] => (welcome, [])
  | welcome, r :: rs =>
    let (welcome1, resp) := handler execute welcome r
    let (welcome2, resps) := serve execute welcome1 rs
    (welcome2, resp :: resps)

/-! ## main.go: startup (lines 43-122 and 162-185) -/

/-- The fields of `oauth2.Token`. -/
structure Token where
  AccessToken : String
  TokenType : String
  RefreshToken : String
  Expiry : Int
  deriving DecidableEq, Repr

/-- The client configuration parsed from the client-secret file. -/
structure Config where
  raw : String
  deriving DecidableEq, Repr

/-- Go: the result of `config.Client(ctx, tok)`. -/
structure Client where
  config : Config
  tok : Token
  deriving DecidableEq, Repr

/-- The answers of everything outside the program during one start. -/
structure World where
  /-- The content of a file, `none` when it cannot be opened or read. -/
  readFile : String → Option String
  /-- Go: `google.ConfigFromJSON`. -/
  configFromJSON : String → Option Config
  /-- Go: `json.NewDecoder(f).Decode(tok)`. -/
  decodeToken : String → Option Token
  /-- Go: `fmt.Scan(&authCode)`. -/
  scanCode : Option String
  /-- Go: `config.Exchange`. -/
  exchange : Config → String → Option Token
  /-- Whether `os.OpenFile` for writing succeeds on a path. -/
  canCreate : String → Bool
  /-- Whether `calendar.New` succeeds. -/
  calendarNew : Client → Bool
  /-- Go: `time.Now()`. -/
  now : Time
  /-- The offset of the local zone at an instant. -/
  localOffset : Int → Int
  /-- The items returned by the list call, `none` when it fails. -/
  listEvents : Client → Option (List CalendarEvent)
  /-- Whether `template.ParseFiles` succeeds. -/
  parseTemplate : Bool

/-- What the process does to the outside, in order.  A fatal diagnostic carries
the fixed part of its message, without the text of the error. -/
inductive Effect where
  | readFile (path : String)
  | printAuthURL
  | scanAuthCode
  | exchangeCode (code : String)
  | writeToken (path : String) (tok : Token)
  | newCalendarService
  | listEvents (calendarId : String) (showDeleted singleEvents : Bool) (timeMin : Time)
      (maxResults : Nat) (orderBy : String)
  | println (text : String)
  | parseTemplateFiles (path : String)
  | listenAndServe (addr : String)
  | fatal (msg : String)
  deriving DecidableEq, Repr

/-- A step of the startup: the effects so far, and a value unless the process
was terminated by `log.Fatalf`. -/
abbrev Proc (α : Type) := List Effect × Option α

/-- Lines 76-85: `tokenFromFile`; `none` is a non-nil error. -/
def tokenFromFile (w : World) (file : String) : List Effect × Option Token :=
  match w.readFile file with
  | none => ([.readFile file], none)
  | some content => ([.readFile file], w.decodeToken content)

/-- Lines 58-73: `getTokenFromWeb`. -/
def getTokenFromWeb (w : World) (config : Config) : Proc Token :=
  match w.scanCode with
  | none => ([.printAuthURL, .scanAuthCode, .fatal "Unable to read authorization code"], none)
  | some authCode =>
    match w.exchange config authCode with
    | none =>
      ([.printAuthURL, .scanAuthCode, .exchangeCode authCode,
        .fatal "Unable to retrieve token from web"], none)
    | some tok => ([.printAuthURL, .scanAuthCode, .exchangeCode authCode], some tok)

/-- Lines 88-96: `saveToken`. -/
def saveToken (w : World) (path : String) (token : Token) : Proc Unit :=
  if w.canCreate path then
    ([.println ("Saving credential file to: " ++ path), .writeToken path token], some ())
  else
    ([.println ("Saving credential file to: " ++ path), .fatal "Unable to cache oauth token"],
     none)

/-- Lines 44-55: `getClient`. -/
def getClient (w : World) (config : Config) : Proc Client :=
  let tokFile := "token.json"
  match tokenFromFile w tokFile with
  | (tr, some tok) => (tr, some { config := config, tok := tok })
  | (tr, none) =>
    match getTokenFromWeb w config with
    | (tr1, none) => (tr ++ tr1, none)
    | (tr1, some tok) =>
      match saveToken w tokFile tok with
      | (tr2, none) => (tr ++ tr1 ++ tr2, none)
      | (tr2, some _) => (tr ++ tr1 ++ tr2, some { config := config, tok := tok })

/-- How a start of `main` ends: terminated by `log.Fatalf`, stopped by the
panic of `template.Must`, or serving with the display record. -/
inductive Outcome where
  | fatal
  | panicked
  | serving (welcome : Welcome)
  deriving DecidableEq, Repr

/-- Lines 98-185: `main` up to the call of `http.ListenAndServe`.  Of the
lines printed to standard output only the fixed ones are recorded. -/
def main (w : World) : List Effect × Outcome :=
  match w.readFile "credentials.json" with
  | none => ([.readFile "credentials.json", .fatal "Unable to read client secret file"], .fatal)
  | some b =>
    let tr := [Effect.readFile "credentials.json"]
    match w.configFromJSON b with
    | none => (tr ++ [.fatal "Unable to parse client secret file to config"], .fatal)
    | some config =>
      match getClient w config with
      | (tr1, none) => (tr ++ tr1, .fatal)
      | (tr1, some client) =>
        let tr := tr ++ tr1 ++ [.newCalendarService]
        if !w.calendarNew client then
          (tr ++ [.fatal "Unable to retrieve Calendar client"], .fatal)
        else
          let now := w.now
          let tr := tr ++ [.listEvents "primary" false true now 5 "startTime"]
          match w.listEvents client with
          | none =>
            (tr ++ [.fatal "Unable to retrieve next five of the user's events"], .fatal)
          | some items =>
            let tr := if items.length = 0 then tr ++ [.println "No upcoming events found."] else tr
            let welcome := buildWelcome w.localOffset now items
            let tr := tr ++ [.parseTemplateFiles "templates/welcome-template.html"]
            if !w.parseTemplate then (tr, .panicked)
            else (tr ++ [.listenAndServe ":8080"], .serving welcome)

/-! ## Definitions used in the statements and proofs -/

/-- The first half of `absDate`: the year, counted from the absolute zero year,
and the day of the year of a day number. -/
def absYearDay (days : Nat) : Nat × Nat :=
  let d := days
  let n := d / daysPer400Years
  let y := 400 * n
  let d := d - daysPer400Years * n
  let n := d / daysPer100Years
  let n := n - n / 4
  let y := y + 100 * n
  let d := d - daysPer100Years * n
  let n := d / daysPer4Years
  let y := y + 4 * n
  let d := d - daysPer4Years * n
  let n := d / 365
  let n := n - n / 4
  let y := y + n
  let d := d - 365 * n
  (y, d)

/-- The second half of `absDate`: month and day of the month of a day of the
year. -/
def monthDay (leap : Bool) (yday : Nat) : Nat × Nat :=
  let day := yday
  if leap && day = 31 + 29 - 1 then (2, 29)
  else
    let day := if leap && day > 31 + 29 - 1 then day - 1 else day
    let month := day / 31
    let fin := daysBefore (month + 1)
    if day ≥ fin then (month + 1 + 1, day - fin + 1)
    else (month + 1, day - daysBefore month + 1)

/-- Whether `monthDay` gives back month `m` and day `d` from their day of the
year, for a valid day of a leap or a common year. -/
def monthDayOK (leap : Bool) (m d : Nat) : Bool :=
  !(decide (1 ≤ m) && decide (1 ≤ d) && decide (d ≤ daysIn m (if leap then 2000 else 2001))) ||
    decide (monthDay leap (daysBefore (m - 1) + (if leap && decide (m ≥ 3) then 1 else 0) + (d - 1))
      = (m, d))

/-- The days from the absolute epoch to a calendar date, as `Date` counts them. -/
def dayNumber (year : Int) (m d : Nat) : Nat :=
  daysSinceEpoch year + daysBefore (m - 1) + (if isLeap year && decide (m ≥ 3) then 1 else 0)
    + (d - 1)

/-- The absolute seconds of a calendar date and a time of day. -/
def absSeconds (year : Int) (m d h mi s : Nat) : Nat :=
  dayNumber year m d * secondsPerDay + (h * secondsPerHour + mi * secondsPerMinute + s)

/-- Zeller's congruence for the Gregorian calendar, with Sunday as 0. -/
def zellerWeekday (year : Int) (month day : Nat) : Nat :=
  let y : Int := if month < 3 then year - 1 else year
  let m : Int := if month < 3 then month + 12 else month
  let K := y % 100
  let J := y / 100
  let h := (day + (13 * (m + 1)) / 5 + K + K / 4 + J / 4 + 5 * J) % 7
  ((h + 6) % 7).toNat

/-- The abbreviated weekday names, Sunday first. -/
def weekdayAbbr : Nat → String
  | 0 => "Sun"
  | 1 => "Mon"
  | 2 => "Tue"
  | 3 => "Wed"
  | 4 => "Thu"
  | 5 => "Fri"
  | 6 => "Sat"
  | _ => ""

/-- The abbreviated month names, January being month 1. -/
def monthAbbr : Nat → String
  | 1 => "Jan"
  | 2 => "Feb"
  | 3 => "Mar"
  | 4 => "Apr"
  | 5 => "May"
  | 6 => "Jun"
  | 7 => "Jul"
  | 8 => "Aug"
  | 9 => "Sep"
  | 10 => "Oct"
  | 11 => "Nov"
  | 12 => "Dec"
  | _ => ""

/-- The decimal digit for a number below ten. -/
def digitChar (n : Nat) : Char := Char.ofNat ('0'.toNat + n)

/-- A number below one hundred in two decimal digits. -/
def twoDigits (n : Nat) : List Char := [digitChar (n / 10), digitChar (n % 10)]

/-- A day of the month padded with a space to width 2. -/
def dayPadded (d : Nat) : List Char := if d < 10 then [' ', digitChar d] else twoDigits d

/-- The display form `Www, Mmm D HH:MM` of a calendar date and a time of day. -/
def displayDate (year : Int) (month day hour min : Nat) : String :=
  String.mk ((weekdayAbbr (zellerWeekday year month day)).toList ++ ", ".toList
    ++ (monthAbbr month).toList ++ " ".toList ++ dayPadded day ++ " ".toList
    ++ twoDigits hour ++ ":".toList ++ twoDigits min)

/-- What `appendInt` adds for a number below one hundred, tested against the
spec's rendering. -/
def appendIntOK (n : Nat) : Bool :=
  decide (appendInt [] (n : Int) 2 = twoDigits n) &&
  decide (appendInt [] (n : Int) 0 = if n < 10 then [digitChar n] else twoDigits n)

/-- A year below ten thousand in four decimal digits. -/
def fourDigits (n : Nat) : List Char :=
  [digitChar (n / 1000), digitChar (n / 100 % 10), digitChar (n / 10 % 10), digitChar (n % 10)]

/-- A start timestamp as it is written: the date and time fields, whether the
hour is written with one digit, the digits of a fractional second with their
separator (none when `frac` is empty), and the numeric offset with its sign. -/
structure Stamp where
  year : Nat
  month : Nat
  day : Nat
  hour : Nat
  shortHour : Bool
  min : Nat
  sec : Nat
  sep : Char
  frac : List Char
  east : Bool
  offHour : Nat
  offMin : Nat
  deriving DecidableEq, Repr

/-- The hour as written. -/
def Stamp.hourText (s : Stamp) : List Char :=
  if s.shortHour then [digitChar s.hour] else twoDigits s.hour

/-- The fractional second as written. -/
def Stamp.fracText (s : Stamp) : List Char :=
  match s.frac with
  | [] => []
  | c :: ds => s.sep :: c :: ds

/-- The numeric offset as written, `+hh:mm` or `-hh:mm`. -/
def Stamp.offsetText (s : Stamp) : List Char :=
  (if s.east then '+' else '-') :: (twoDigits s.offHour ++ ':' :: twoDigits s.offMin)

/-- The text of a timestamp: date, `T`, time, numeric offset. -/
def Stamp.text (s : Stamp) : List Char :=
  fourDigits s.year ++ '-' :: (twoDigits s.month ++ '-' :: (twoDigits s.day ++ 'T' ::
    (s.hourText ++ ':' :: (twoDigits s.min ++ ':' :: (twoDigits s.sec ++
      (s.fracText ++ s.offsetText))))))

/-- The fields of a timestamp are those of a date of the calendar, of a time of
day and of an offset that `time.Parse` accepts. -/
def Stamp.wellFormed (s : Stamp) : Prop :=
  s.year < 10000 ∧ 1 ≤ s.month ∧ s.month ≤ 12 ∧ 1 ≤ s.day ∧ s.day ≤ daysIn s.month s.year ∧
  s.hour < 24 ∧ (s.shortHour = true → s.hour < 10) ∧ s.min < 60 ∧ s.sec < 60 ∧
  (s.sep = '.' ∨ s.sep = ',') ∧ (∀ c ∈ s.frac, isDigit [c] 0 = true) ∧
  s.offHour ≤ 24 ∧ s.offMin ≤ 60

instance (s : Stamp) : Decidable s.wellFormed := by
  unfold Stamp.wellFormed
  infer_instance

/-- The offset of a timestamp in seconds east of UTC. -/
def Stamp.zoneOffset (s : Stamp) : Int :=
  if s.east then ((s.offHour : Int) * 60 + s.offMin) * 60 + 0
  else -(((s.offHour : Int) * 60 + s.offMin) * 60 + 0)

/-- The timestamp `2024-03-05T09:30:00-05:00`. -/
def exampleStamp : Stamp :=
  { year := 2024, month := 3, day := 5, hour := 9, shortHour := false, min := 30, sec := 0,
    sep := '.', frac := [], east := false, offHour := 5, offMin := 0 }

/-- The event the formatter makes of one raw event, `none` when the event has
no start date-time. -/
def formatted (localOffset : Int → Int) (item : CalendarEvent) : Option Event :=
  if item.Start.DateTime = "" then none
  else some { Summary := item.Summary,
              Date := (Parse localOffset item.Start.DateTime).1.Format localOffset }

/-- The value of the most recent non-empty `name` parameter among the requests,
`none` when no request carries one. -/
def latestName (rs : List Request) : Option String :=
  ((rs.map fun r => r.FormValue "name").filter fun name => name ≠ "").getLast?

/-- A cached token whose expiry lies in the past. -/
def exampleToken : Token :=
  { AccessToken := "access", TokenType := "Bearer", RefreshToken := "refresh", Expiry := 0 }

/-- A start with both files present: the local clock shows Tuesday, March 5,
2024, 09:30 at five hours west of UTC, and the calendar returns one timed event
and one all-day event. -/
def exampleWorld : World :=
  { readFile := fun path =>
      if path = "credentials.json" then some "secret"
      else if path = "token.json" then some "cached" else none
    configFromJSON := fun b => some { raw := b }
    decodeToken := fun s => if s = "cached" then some exampleToken else none
    scanCode := some "4/code"
    exchange := fun _ code =>
      some { AccessToken := code, TokenType := "Bearer", RefreshToken := "fresh", Expiry := 3600 }
    canCreate := fun _ => true
    calendarNew := fun _ => true
    now := { nsec := 0, ext := 63845245800, loc := .localZone }
    localOffset := fun _ => -18000
    listEvents := fun _ =>
      some [CalendarEvent.mk "Standup" (EventDateTime.mk "2024-03-05T10:00:00-05:00"),
            CalendarEvent.mk "Holiday" (EventDateTime.mk "")]
    parseTemplate := true }

/-- A first start: the client-secret file is present, `token.json` is not. -/
def firstRunWorld : World :=
  { exampleWorld with
    readFile := fun path => if path = "credentials.json" then some "secret" else none }

/-- A start without the client-secret file. -/
def noCredentialsWorld : World :=
  { exampleWorld with readFile := fun _ => none }

/-- The example timestamp with the offset `+09:30`. -/
def exampleStampEast : Stamp :=
  { exampleStamp with east := true, offHour := 9, offMin := 30 }

/-- Six raw events with a start time, one more than the list call asks for. -/
def sixItems : List CalendarEvent :=
  [CalendarEvent.mk "Standup" (EventDateTime.mk "2024-03-05T10:00:00-05:00"),
   CalendarEvent.mk "Lunch" (EventDateTime.mk "2024-03-05T12:00:00-05:00"),
   CalendarEvent.mk "Review" (EventDateTime.mk "2024-03-05T14:00:00-05:00"),
   CalendarEvent.mk "Gym" (EventDateTime.mk "2024-03-05T18:00:00-05:00"),
   CalendarEvent.mk "Dinner" (EventDateTime.mk "2024-03-05T19:30:00-05:00"),
   CalendarEvent.mk "Flight" (EventDateTime.mk "2024-03-06T07:15:00-05:00")]

/-- A start in which the calendar returns five raw events with a start time. -/
def fiveItemsWorld : World :=
  { exampleWorld with listEvents := fun _ => some (sixItems.take 5) }

/-- A start in which the calendar returns six raw events although the call
asks for at most five. -/
def sixItemsWorld : World :=
  { exampleWorld with listEvents := fun _ => some sixItems }

/-! ## Lemmas on the calendar arithmetic of Go `time` -/

theorem norm_id (hi lo base : Int) (h0 : 0 ≤ lo) (h1 : lo < base) : norm hi lo base = (hi, lo) := by
  unfold norm
  have h2 : ¬ lo < 0 := by omega
  have h3 : ¬ lo ≥ base := by omega
  simp [h2, h3]

theorem daysSinceEpoch_eq (year : Int) (h0 : 0 ≤ year) (h1 : year ≤ 9999) :
    (daysSinceEpoch year : Int) =
      365 * (year + 292277022399) + (year + 292277022399) / 4 - (year + 292277022399) / 100
        + (year + 292277022399) / 400 := by
  unfold daysSinceEpoch toUint64 absoluteZeroYear daysPer400Years daysPer100Years daysPer4Years
  simp only []
  omega

theorem toInt64_id (x : Int) (h0 : -9223372036854775808 ≤ x) (h1 : x < 9223372036854775808) :
    toInt64 x = x := by
  unfold toInt64; omega

theorem toUint64_id (n : Nat) (h : n < 18446744073709551616) : toUint64 (n : Int) = n := by
  unfold toUint64; omega

theorem toInt64_toInt64_add (a c : Int) : toInt64 (toInt64 a + c) = toInt64 (a + c) := by
  unfold toInt64; omega

theorem toUint64_toInt64 (a : Int) : toUint64 (toInt64 a) = toUint64 a := by
  unfold toInt64 toUint64; omega

theorem toInt64_toInt64_add2 (a b c : Int) :
    toInt64 (toInt64 a + b + c) = toInt64 (a + b + c) := by
  unfold toInt64; omega

theorem cycle_step (P q rest : Nat) (hP : 0 < P) (h : rest < P) :
    (P * q + rest) / P = q ∧ P * q + rest - P * q = rest := by
  constructor
  · rw [Nat.mul_add_div hP, Nat.div_eq_of_lt h]; rfl
  · omega

theorem cycle_step4 (P c rest : Nat) (hP : 0 < P) (hc : c < 4)
    (h : rest < P ∨ (c = 3 ∧ rest = P)) :
    (P * c + rest) / P - (P * c + rest) / P / 4 = c := by
  rcases h with h | ⟨h3, h⟩
  · rw [(cycle_step P c rest hP h).1]; omega
  · have e : (P * c + rest) / P = 4 := by
      have : P * c + rest = 4 * P := by rw [h3, h]; ring
      rw [this, Nat.mul_div_cancel _ hP]
    rw [e, h3]

theorem absYearDay_eq (Y yd : Nat)
    (h : yd < 365 ∨ (yd = 365 ∧ (Y + 1) % 4 = 0 ∧ ((Y + 1) % 100 ≠ 0 ∨ (Y + 1) % 400 = 0))) :
    absYearDay (365 * Y + Y / 4 - Y / 100 + Y / 400 + yd) = (Y, yd) := by
  obtain ⟨q, c, f, r, hY, hc, hf, hr⟩ :
      ∃ q c f r, Y = 400 * q + 100 * c + 4 * f + r ∧ c < 4 ∧ f < 25 ∧ r < 4 :=
    ⟨Y / 400, Y % 400 / 100, Y % 100 / 4, Y % 4, by omega, by omega, by omega, by omega⟩
  have e0 : 365 * Y + Y / 4 - Y / 100 + Y / 400 + yd
      = 146097 * q + (36524 * c + (1461 * f + (365 * r + yd))) := by omega
  have hleap : yd < 365 ∨ (yd = 365 ∧ r = 3 ∧ (f ≠ 24 ∨ c = 3)) := by omega
  have a1 := cycle_step 146097 q (36524 * c + (1461 * f + (365 * r + yd))) (by norm_num) (by omega)
  have a2 := cycle_step4 36524 c (1461 * f + (365 * r + yd)) (by norm_num) hc (by omega)
  have a3 := cycle_step 1461 f (365 * r + yd) (by norm_num) (by omega)
  have a4 := cycle_step4 365 r yd (by norm_num) hr (by omega)
  have c1 : daysPer400Years = 146097 := rfl
  have c2 : daysPer100Years = 36524 := rfl
  have c3 : daysPer4Years = 1461 := rfl
  unfold absYearDay
  simp only [c1, c2, c3, e0]
  simp only [a1.1, a1.2, a2,
    Nat.add_sub_cancel_left, a3.1, a4]
  rw [hY]

theorem absDate_eq (abs : Nat) :
    absDate abs =
      (let yd := absYearDay (abs / secondsPerDay)
       let year : Int := toInt64 ((yd.1 : Int) + absoluteZeroYear)
       let md := monthDay (isLeap year) yd.2
       (year, md.1, md.2, yd.2)) := by
  unfold absDate absYearDay monthDay
  simp only []
  split_ifs <;> simp_all

theorem isLeap_iff (y : Int) :
    isLeap y = true ↔ (y % 4 = 0 ∧ (y % 100 ≠ 0 ∨ y % 400 = 0)) := by
  simp [isLeap]

theorem monthDay_table (leap : Bool) :
    ((List.range 13).all fun m => (List.range 32).all fun d => monthDayOK leap m d) = true := by
  cases leap <;> decide

theorem daysIn_le (m : Nat) (y : Int) (hm1 : 1 ≤ m) (hm2 : m ≤ 12) : daysIn m y ≤ 31 := by
  unfold daysIn
  split_ifs
  · omega
  · interval_cases m <;> simp [daysBefore]

theorem daysIn_leap (m : Nat) (y : Int) :
    daysIn m y = daysIn m (if isLeap y then 2000 else 2001) := by
  unfold daysIn
  cases h : isLeap y <;> simp [isLeap]

theorem monthDay_eq (y : Int) (m d : Nat) (hm1 : 1 ≤ m) (hm2 : m ≤ 12) (hd1 : 1 ≤ d)
    (hd2 : d ≤ daysIn m y) :
    monthDay (isLeap y)
        (daysBefore (m - 1) + (if isLeap y && decide (m ≥ 3) then 1 else 0) + (d - 1))
      = (m, d) := by
  have hd3 : d < 32 := by
    have := daysIn_le m y hm1 hm2
    omega
  have h := monthDay_table (isLeap y)
  rw [List.all_eq_true] at h
  have h1 := h m (List.mem_range.mpr (by omega))
  rw [List.all_eq_true] at h1
  have h2 := h1 d (List.mem_range.mpr hd3)
  rw [daysIn_leap] at hd2
  unfold monthDayOK at h2
  simp only [hm1, hd1, hd2, decide_True, Bool.and_self, Bool.not_true, Bool.false_or,
    decide_eq_true_eq] at h2
  exact h2

theorem daysBefore_le (k : Nat) : daysBefore k ≤ 365 := by
  unfold daysBefore
  split <;> omega

theorem dayNumber_bounds (y : Int) (m d : Nat) (h0 : 0 ≤ y) (h1 : y ≤ 9999) (hd : d ≤ 31) :
    106751990353566 ≤ dayNumber y m d ∧ dayNumber y m d ≤ 106751994006023 := by
  have e := daysSinceEpoch_eq y h0 h1
  have b := daysBefore_le (m - 1)
  unfold dayNumber
  split_ifs <;> omega

theorem absSeconds_bounds (y : Int) (m d h mi s : Nat) (h0 : 0 ≤ y) (h1 : y ≤ 9999)
    (hd2 : d ≤ 31) (hh : h < 24) (hmi : mi < 60) (hs : s < 60) :
    9223371966548102400 ≤ absSeconds y m d h mi s ∧ absSeconds y m d h mi s ≤ 9223372282120473599 := by
  have hb := dayNumber_bounds y m d h0 h1 hd2
  have c4 : secondsPerDay = 86400 := rfl
  have c5 : secondsPerHour = 3600 := rfl
  have c6 : secondsPerMinute = 60 := rfl
  unfold absSeconds
  rw [c4, c5, c6]
  omega

theorem absoluteToInternal_eq : absoluteToInternal = -9223371966579724800 := by decide

theorem internalToUnix_eq : internalToUnix = -62135596800 := by decide

theorem unixToInternal_eq : unixToInternal = 62135596800 := by decide

theorem internalToAbsolute_eq : internalToAbsolute = 9223371966579724800 := by decide

theorem DateUTC_eq (y : Int) (m d h mi s ns : Nat) (h0 : 0 ≤ y) (h1 : y ≤ 9999)
    (hm1 : 1 ≤ m) (hm2 : m ≤ 12) (hd1 : 1 ≤ d) (hd2 : d ≤ 31) (hh : h < 24) (hmi : mi < 60)
    (hs : s < 60) (hns : ns < 1000000000) :
    DateUTC y m d h mi s ns =
      { nsec := ns, ext := (absSeconds y m d h mi s : Int) + absoluteToInternal, loc := .utc } := by
  have hb := absSeconds_bounds y m d h mi s h0 h1 hd2 hh hmi hs
  have hb1 := dayNumber_bounds y m d h0 h1 hd2
  have n1 := norm_id y ((m : Int) - 1) 12 (by omega) (by omega)
  have n2 := norm_id (s : Int) (ns : Int) 1000000000 (by omega) (by omega)
  have n3 := norm_id (mi : Int) (s : Int) 60 (by omega) (by omega)
  have n4 := norm_id (h : Int) (mi : Int) 60 (by omega) (by omega)
  have n5 := norm_id (d : Int) (h : Int) 24 (by omega) (by omega)
  have e1 : ((m : Int) - 1 + 1 - 1).toNat = m - 1 := by omega
  have e2 : (decide ((m : Int) - 1 + 1 ≥ 3)) = decide (m ≥ 3) := by
    simp only [ge_iff_le, decide_eq_decide]; omega
  have e3 : ((ns : Int)).toNat = ns := by omega
  have k1 : (((if (isLeap y && decide (m ≥ 3)) = true
        then daysSinceEpoch y + daysBefore (m - 1) + 1
        else daysSinceEpoch y + daysBefore (m - 1) : Nat) : Int) + ((d : Int) - 1))
      = ((dayNumber y m d : Nat) : Int) := by
    unfold dayNumber
    split_ifs <;> omega
  have k3 : ((dayNumber y m d * secondsPerDay : Nat) : Int)
        + ((h : Int) * secondsPerHour + (mi : Int) * secondsPerMinute + (s : Int))
      = ((absSeconds y m d h mi s : Nat) : Int) := by
    unfold absSeconds
    push_cast
    ring
  unfold DateUTC
  simp only [n1, n2, n3, n4, n5, e1, e2, e3]
  unfold unixTime Time.setLoc
  dsimp only
  refine congrArg (fun e => ({ nsec := ns, ext := e, loc := Location.utc } : Time)) ?_
  rw [k1, toUint64_id _ (by omega), k3, toUint64_id _ (by omega), toInt64_toInt64_add,
    toInt64_toInt64_add2, absoluteToInternal_eq, internalToUnix_eq, unixToInternal_eq]
  rw [toInt64_id _ (by omega) (by omega)]
  omega

theorem daysSinceEpoch_nat (y : Int) (h0 : 0 ≤ y) (h1 : y ≤ 9999) :
    daysSinceEpoch y =
      365 * (y + 292277022399).toNat + (y + 292277022399).toNat / 4
        - (y + 292277022399).toNat / 100 + (y + 292277022399).toNat / 400 := by
  have e := daysSinceEpoch_eq y h0 h1
  omega

theorem yday_lt (y : Int) (m d : Nat) (hm1 : 1 ≤ m) (hm2 : m ≤ 12) (hd1 : 1 ≤ d)
    (hd2 : d ≤ daysIn m y) :
    daysBefore (m - 1) + (if isLeap y && decide (m ≥ 3) then 1 else 0) + (d - 1)
      < 365 + (if isLeap y then 1 else 0) := by
  unfold daysIn at hd2
  interval_cases m <;> cases hl : isLeap y <;> simp [daysBefore, hl] at hd2 ⊢ <;> omega

theorem absDate_absSeconds (y : Int) (m d h mi s : Nat) (h0 : 0 ≤ y) (h1 : y ≤ 9999)
    (hm1 : 1 ≤ m) (hm2 : m ≤ 12) (hd1 : 1 ≤ d) (hd2 : d ≤ daysIn m y) (hh : h < 24)
    (hmi : mi < 60) (hs : s < 60) :
    absDate (absSeconds y m d h mi s) =
      (y, m, d, daysBefore (m - 1) + (if isLeap y && decide (m ≥ 3) then 1 else 0) + (d - 1)) := by
  have hdiv : absSeconds y m d h mi s / secondsPerDay = dayNumber y m d := by
    unfold absSeconds
    have c4 : secondsPerDay = 86400 := rfl
    have c5 : secondsPerHour = 3600 := rfl
    have c6 : secondsPerMinute = 60 := rfl
    rw [c4, c5, c6]
    omega
  have hyd := yday_lt y m d hm1 hm2 hd1 hd2
  have hleap := isLeap_iff y
  have hday : dayNumber y m d =
      365 * (y + 292277022399).toNat + (y + 292277022399).toNat / 4
        - (y + 292277022399).toNat / 100 + (y + 292277022399).toNat / 400
        + (daysBefore (m - 1) + (if isLeap y && decide (m ≥ 3) then 1 else 0) + (d - 1)) := by
    unfold dayNumber
    rw [daysSinceEpoch_nat y h0 h1]
    omega
  have hyear : toInt64 (((y + 292277022399).toNat : Int) + absoluteZeroYear) = y := by
    unfold absoluteZeroYear
    rw [toInt64_id _ (by omega) (by omega)]
    omega
  rw [absDate_eq, hdiv, hday, absYearDay_eq]
  · simp only [hyear]
    rw [monthDay_eq y m d hm1 hm2 hd1 hd2]
  · cases hl : isLeap y
    · left
      simp only [hl, Bool.false_and, Bool.false_eq_true, if_false] at hyd ⊢
      omega
    · have := hleap.mp hl
      simp only [hl, if_true] at hyd
      by_cases h365 : daysBefore (m - 1) + (if (true && decide (m ≥ 3)) = true then 1 else 0) + (d - 1) < 365
      · left; exact h365
      · right
        refine ⟨by omega, by omega, by omega⟩

theorem absClock_absSeconds (y : Int) (m d h mi s : Nat) (hh : h < 24) (hmi : mi < 60)
    (hs : s < 60) : absClock (absSeconds y m d h mi s) = (h, mi, s) := by
  unfold absClock absSeconds
  have c4 : secondsPerDay = 86400 := rfl
  have c5 : secondsPerHour = 3600 := rfl
  have c6 : secondsPerMinute = 60 := rfl
  rw [c4, c5, c6]
  simp only [Prod.mk.injEq]
  refine ⟨by omega, by omega, by omega⟩

theorem shift4 (x : Int) : (x + 292277022399) / 4 = (x - 1) / 4 + 73069255600 := by omega

theorem shift100 (x : Int) : (x + 292277022399) / 100 = (x - 1) / 100 + 2922770224 := by omega

theorem shift400 (x : Int) : (x + 292277022399) / 400 = (x - 1) / 400 + 730692556 := by omega

theorem div4_split (x : Int) : x / 4 = 25 * (x / 100) + (x % 100) / 4 := by omega

theorem div400_split (x : Int) : x / 400 = (x / 100) / 4 := by omega

theorem mod100_split (x : Int) : x = 100 * (x / 100) + x % 100 := by omega

theorem leap_step (y : Int) :
    y / 4 - y / 100 + y / 400 =
      (y - 1) / 4 - (y - 1) / 100 + (y - 1) / 400 + (if isLeap y then 1 else 0) := by
  have hleap := isLeap_iff y
  cases hl : isLeap y <;> simp [hl] at hleap ⊢ <;> omega

theorem weekday_lin (D J K Q R d db c : Int) (hc : (db - c - 6) % 7 = 0)
    (hD : D = 365 * (100 * J + K) + 24 * J + Q + R + 106751990353932) :
    (D + db + d) % 7 = ((d + c + K + Q + R + 5 * J) % 7 + 6) % 7 := by
  subst hD
  omega

theorem zeller_const_early (m : Nat) (hm1 : 1 ≤ m) (hm : m < 3) :
    ((daysBefore (m - 1) : Int) - (13 * (((m : Int) + 12) + 1)) / 5 - 6) % 7 = 0 := by
  interval_cases m <;> decide

theorem zeller_const_late (m : Nat) (hm1 : 3 ≤ m) (hm : m ≤ 12) :
    ((daysBefore (m - 1) : Int) - 365 - (13 * ((m : Int) + 1)) / 5 - 6) % 7 = 0 := by
  interval_cases m <;> decide

theorem dse_zeller (x D : Int)
    (e : D = 365 * (x + 292277022399) + (x + 292277022399) / 4 - (x + 292277022399) / 100
      + (x + 292277022399) / 400) :
    D = 365 * (100 * ((x - 1) / 100) + (x - 1) % 100) + 24 * ((x - 1) / 100)
      + ((x - 1) % 100) / 4 + ((x - 1) / 100) / 4 + 106751990353932 := by
  rw [shift4, shift100, shift400] at e
  have s1 := div4_split (x - 1)
  have s2 := div400_split (x - 1)
  have s3 := mod100_split (x - 1)
  generalize ((x - 1) % 100) / 4 = Q at *
  generalize ((x - 1) / 100) / 4 = R at *
  generalize (x - 1) % 100 = K at *
  generalize (x - 1) / 100 = J at *
  generalize (x - 1) / 4 = A at *
  generalize (x - 1) / 400 = E at *
  omega

theorem absWeekday_absSeconds (y : Int) (m d h mi s : Nat) (h0 : 0 ≤ y) (h1 : y ≤ 9999)
    (hm1 : 1 ≤ m) (hm2 : m ≤ 12) (hd1 : 1 ≤ d) (hh : h < 24)
    (hmi : mi < 60) (hs : s < 60) :
    absWeekday (absSeconds y m d h mi s) = zellerWeekday y m d := by
  have c4 : secondsPerDay = 86400 := rfl
  have c5 : secondsPerHour = 3600 := rfl
  have c6 : secondsPerMinute = 60 := rfl
  have c7 : secondsPerWeek = 604800 := rfl
  have hw : absWeekday (absSeconds y m d h mi s) = (dayNumber y m d + 1) % 7 := by
    unfold absWeekday absSeconds
    rw [c4, c5, c6, c7]
    dsimp only
    omega
  rw [hw]
  clear hw c4 c5 c6 c7 hh hmi hs
  have e := daysSinceEpoch_eq y h0 h1
  by_cases hm : m < 3
  · have hc := zeller_const_early m hm1 hm
    have hD := dse_zeller y _ e
    have key := weekday_lin _ _ _ _ _ (d : Int) _ _ hc hD
    unfold zellerWeekday dayNumber
    have hl : (isLeap y && decide (m ≥ 3)) = false := by
      simp only [Bool.and_eq_false_imp, decide_eq_false_iff_not]; intro _; omega
    simp only [hl, if_pos hm, Bool.false_eq_true, if_false]
    rw [← key]
    clear key hD hc e
    omega
  · have hc := zeller_const_late m (by omega) hm2
    have ls := leap_step y
    have hD := dse_zeller (y + 1) ((daysSinceEpoch y : Int) + 365 + (if isLeap y then 1 else 0))
      (by
        rw [e]
        have t1 := shift4 y
        have t2 := shift100 y
        have t3 := shift400 y
        have u1 := shift4 (y + 1)
        have u2 := shift100 (y + 1)
        have u3 := shift400 (y + 1)
        rw [add_sub_cancel_right] at u1 u2 u3
        rw [t1, t2, t3, u1, u2, u3]
        generalize y / 4 = a at *
        generalize y / 100 = b at *
        generalize y / 400 = c at *
        generalize (y - 1) / 4 = a1 at *
        generalize (y - 1) / 100 = b1 at *
        generalize (y - 1) / 400 = c1 at *
        omega)
    rw [add_sub_cancel_right] at hD
    have key := weekday_lin _ _ _ _ _ (d : Int) _ _ hc hD
    unfold zellerWeekday dayNumber
    have hl : (isLeap y && decide (m ≥ 3)) = isLeap y := by
      have : decide (m ≥ 3) = true := by simp only [decide_eq_true_eq]; omega
      rw [this, Bool.and_true]
    simp only [hl, if_neg hm]
    rw [← key]
    clear key hD hc e ls
    split_ifs <;> omega

theorem appendInt_append (b : List Char) (n : Nat) (w : Nat) :
    appendInt b (n : Int) w = b ++ appendInt [] (n : Int) w := by
  unfold appendInt
  have : ¬ ((n : Int) < 0) := by omega
  simp only [this, if_false, List.nil_append, List.append_assoc]

theorem appendInt_table : ((List.range 100).all fun n => appendIntOK n) = true := by
  decide

theorem appendInt_two (b : List Char) (n : Nat) (h : n < 100) :
    appendInt b (n : Int) 2 = b ++ twoDigits n := by
  have t := appendInt_table
  rw [List.all_eq_true] at t
  have t1 := t n (List.mem_range.mpr h)
  unfold appendIntOK at t1
  simp only [Bool.and_eq_true, decide_eq_true_eq] at t1
  rw [appendInt_append, t1.1]

theorem appendInt_day (b : List Char) (n : Nat) (h : n < 100) :
    appendInt (if n < 10 then b ++ [' '] else b) (n : Int) 0 = b ++ dayPadded n := by
  have t := appendInt_table
  rw [List.all_eq_true] at t
  have t1 := t n (List.mem_range.mpr h)
  unfold appendIntOK at t1
  simp only [Bool.and_eq_true, decide_eq_true_eq] at t1
  rw [appendInt_append, t1.2]
  unfold dayPadded
  split_ifs <;> simp

theorem weekdayAbbr_eq (wd : Nat) (h : wd < 7) :
    (longDayNames.getD wd "").toList.take 3 = (weekdayAbbr wd).toList := by
  interval_cases wd <;> decide

theorem monthAbbr_eq (m : Nat) (h1 : 1 ≤ m) (h2 : m ≤ 12) :
    (longMonthNames.getD (m - 1) "").toList.take 3 = (monthAbbr m).toList := by
  interval_cases m <;> decide

theorem zellerWeekday_lt (y : Int) (m d : Nat) : zellerWeekday y m d < 7 := by
  unfold zellerWeekday
  dsimp only
  omega

theorem Format_of_abs (lo : Int → Int) (t : Time) (y : Int) (m d h mi s : Nat)
    (h0 : 0 ≤ y) (h1 : y ≤ 9999)
    (hm1 : 1 ≤ m) (hm2 : m ≤ 12) (hd1 : 1 ≤ d) (hd2 : d ≤ daysIn m y) (hh : h < 24)
    (hmi : mi < 60) (hs : s < 60) (habs : t.abs lo = absSeconds y m d h mi s) :
    t.Format lo = displayDate y m d h mi := by
  have hd3 := daysIn_le m y hm1 hm2
  unfold Time.Format displayDate
  rw [habs]
  simp only [formatLoop, finalLayout, formatChunk,
    absDate_absSeconds y m d h mi s h0 h1 hm1 hm2 hd1 hd2 hh hmi hs,
    absClock_absSeconds y m d h mi s hh hmi hs,
    absWeekday_absSeconds y m d h mi s h0 h1 hm1 hm2 hd1 hh hmi hs,
    weekdayAbbr_eq _ (zellerWeekday_lt y m d), monthAbbr_eq m hm1 hm2]
  rw [appendInt_two _ mi (by omega), appendInt_two _ h (by omega), appendInt_day _ d (by omega)]
  have e : "".toList = [] := rfl
  simp only [e, List.nil_append, List.append_nil]

theorem Time_abs_of_ext (lo : Int → Int) (t : Time) (A : Nat) (off : Int)
    (hA1 : 9223371966548102400 ≤ A) (hA2 : A ≤ 9223372282120473599)
    (hext : t.ext = (A : Int) + absoluteToInternal - off)
    (hloc : t.loc.lookup lo t.unixSec = off) : t.abs lo = A := by
  unfold Time.abs
  dsimp only
  rw [hloc]
  unfold Time.unixSec
  rw [toUint64_toInt64, hext, toInt64_toInt64_add, absoluteToInternal_eq, internalToUnix_eq,
    unixToInternal_eq, internalToAbsolute_eq, toInt64_id _ (by omega) (by omega)]
  have e : (A : Int) + -9223371966579724800 - off + -62135596800 + off
      + (62135596800 + 9223371966579724800) = (A : Int) := by omega
  rw [e, toUint64_id _ (by omega)]

theorem parseFinish_abs (lo : Int → Int) (st : ParseState) (y : Int) (m d h mi s ns : Nat)
    (hy : st.year = y) (hm : st.month = m) (hd : st.day = d) (hh' : st.hour = h)
    (hmi' : st.min = mi) (hs' : st.sec = s) (hns' : st.nsec = ns)
    (h0 : 0 ≤ y) (h1 : y ≤ 9999)
    (hm1 : 1 ≤ m) (hm2 : m ≤ 12) (hd1 : 1 ≤ d) (hd2 : d ≤ daysIn m y) (hh : h < 24)
    (hmi : mi < 60) (hs : s < 60) (hns : ns < 1000000000)
    (hz1 : -90000 ≤ st.zoneOffset) (hz2 : st.zoneOffset ≤ 90000) :
    ∃ t, parseFinish lo st = some t ∧ t.abs lo = absSeconds y m d h mi s := by
  have hd3 := daysIn_le m y hm1 hm2
  have hb := absSeconds_bounds y m d h mi s h0 h1 (by omega) hh hmi hs
  have hD := DateUTC_eq y m d h mi s ns h0 h1 hm1 hm2 hd1 (by omega) hh hmi hs hns
  have c1 : ¬ ((m : Int) < 0) := by omega
  have c2 : ¬ ((d : Int) < 0) := by omega
  have c3 : ((d : Int) < 1 || decide ((d : Int) > ((daysIn (m : Int).toNat y : Nat) : Int))) = false := by
    simp only [Int.toNat_ofNat, Bool.or_eq_false_iff, decide_eq_false_iff_not]
    constructor <;> omega
  unfold parseFinish
  rw [hy, hm, hd, hh', hmi', hs', hns']
  simp only [c1, c2, if_false, c3, Bool.false_eq_true, hD]
  by_cases hz : st.zoneOffset = -1
  · simp only [hz, ne_eq, not_true_eq_false, if_false]
    refine ⟨_, rfl, ?_⟩
    exact Time_abs_of_ext lo _ _ 0 hb.1 hb.2 (by simp) rfl
  · simp only [ne_eq, hz, not_false_eq_true, if_true]
    have ha : Time.addSec (Time.mk ns ((absSeconds y m d h mi s : Int) + absoluteToInternal)
        Location.utc) (-st.zoneOffset) =
        Time.mk ns ((absSeconds y m d h mi s : Int) + absoluteToInternal - st.zoneOffset)
          Location.utc := by
      unfold Time.addSec
      dsimp only
      rw [absoluteToInternal_eq, toInt64_id _ (by omega) (by omega)]
      have : decide ((absSeconds y m d h mi s : Int) + -9223371966579724800 + -st.zoneOffset
            > (absSeconds y m d h mi s : Int) + -9223371966579724800)
          = decide (-st.zoneOffset > 0) := by
        simp only [gt_iff_lt, decide_eq_decide]; omega
      rw [if_pos this]
      rfl
    rw [ha]
    split_ifs with hl
    · refine ⟨_, rfl, ?_⟩
      exact Time_abs_of_ext lo _ _ st.zoneOffset hb.1 hb.2 rfl hl
    · refine ⟨_, rfl, ?_⟩
      exact Time_abs_of_ext lo _ _ st.zoneOffset hb.1 hb.2 rfl rfl

theorem digitChar_toNat (a : Nat) (h : a < 10) : (digitChar a).toNat = 48 + a := by
  interval_cases a <;> rfl

theorem isDigit_cons_zero (c : Char) (rest : List Char) :
    isDigit (c :: rest) 0 = (decide (48 ≤ c.toNat) && decide (c.toNat ≤ 57)) := rfl

theorem isDigit_cons_succ (c : Char) (rest : List Char) (i : Nat) :
    isDigit (c :: rest) (i + 1) = isDigit rest i := rfl

theorem isDigit_digitChar (a : Nat) (h : a < 10) (rest : List Char) :
    isDigit (digitChar a :: rest) 0 = true := by
  rw [isDigit_cons_zero, digitChar_toNat a h]
  simp only [Bool.and_eq_true, decide_eq_true_eq]
  omega

theorem digitVal_digitChar (a : Nat) (h : a < 10) : digitVal (digitChar a) = a := by
  unfold digitVal
  rw [digitChar_toNat a h]
  have : '0'.toNat = 48 := rfl
  rw [this]
  omega

theorem getnum_twoDigits (n : Nat) (h : n < 100) (fixed : Bool) (rest : List Char) :
    getnum (twoDigits n ++ rest) fixed = some ((n : Int), rest) := by
  have h1 : n / 10 < 10 := by omega
  have h2 : n % 10 < 10 := by omega
  unfold getnum twoDigits
  simp only [List.cons_append, List.nil_append, isDigit_digitChar _ h1, isDigit_cons_succ,
    isDigit_digitChar _ h2, Bool.not_true, Bool.false_eq_true, if_false,
    digitVal_digitChar _ h1, digitVal_digitChar _ h2, Option.some.injEq, Prod.mk.injEq, and_true]
  omega

theorem getnum_oneDigit (n : Nat) (h : n < 10) (rest : List Char) (hr : isDigit rest 0 = false) :
    getnum (digitChar n :: rest) false = some ((n : Int), rest) := by
  unfold getnum
  simp only [isDigit_digitChar _ h, isDigit_cons_succ, hr, Bool.not_true, Bool.false_eq_true,
    if_false, Bool.not_false, if_true, digitVal_digitChar _ h]

theorem leadingInt_digit (x a : Nat) (ha : a < 10) (hx : x < 100000) (rest : List Char) :
    leadingInt x (digitChar a :: rest) = leadingInt (x * 10 + a) rest := by
  have e := digitChar_toNat a ha
  have z : '0'.toNat = 48 := rfl
  have n9 : '9'.toNat = 57 := rfl
  rw [leadingInt]
  have c1 : ((digitChar a).toNat < '0'.toNat || decide ((digitChar a).toNat > '9'.toNat)) = false := by
    rw [e, z, n9]
    simp only [Bool.or_eq_false_iff, decide_eq_false_iff_not]
    constructor <;> omega
  have c2 : ¬ (x > 9223372036854775808 / 10) := by omega
  have c3 : ¬ (x * 10 + (digitChar a).toNat - '0'.toNat > 9223372036854775808) := by
    rw [e, z]; omega
  simp only [c1, Bool.false_eq_true, if_false, c2, c3]
  rw [e, z]
  congr 1
  omega

theorem atoi_fourDigits (n : Nat) (h : n < 10000) : atoi (fourDigits n) = some (n : Int) := by
  have h1 : n / 1000 < 10 := by omega
  have h2 : n / 100 % 10 < 10 := by omega
  have h3 : n / 10 % 10 < 10 := by omega
  have h4 : n % 10 < 10 := by omega
  have hs : (decide (digitChar (n / 1000) = '-') || decide (digitChar (n / 1000) = '+')) = false := by
    have e := digitChar_toNat _ h1
    have m1 : '-'.toNat = 45 := rfl
    have m2 : '+'.toNat = 43 := rfl
    simp only [Bool.or_eq_false_iff, decide_eq_false_iff_not]
    constructor <;> (intro hc; rw [hc] at e; omega)
  have hv : (0 * 10 + n / 1000) * 10 + n / 100 % 10 = n / 100 := by omega
  have hv2 : n / 100 * 10 + n / 10 % 10 = n / 10 := by omega
  have hv3 : n / 10 * 10 + n % 10 = n := by omega
  unfold atoi fourDigits
  simp only [hs, Bool.false_eq_true, if_false]
  rw [leadingInt_digit 0 _ h1 (by omega), leadingInt_digit _ _ h2 (by omega), hv,
    leadingInt_digit _ _ h3 (by omega), hv2, leadingInt_digit _ _ h4 (by omega), hv3, leadingInt]
  simp only [Bool.false_eq_true, if_false]
  rw [toInt64_id _ (by omega) (by omega)]

theorem leadingInt_digits (ds : List Char) (hds : ∀ c ∈ ds, isDigit [c] 0 = true) :
    ∀ (x j : Nat), x < 10 ^ j → j + ds.length ≤ 9 →
      ∃ q, leadingInt x ds = some (q, []) ∧ q < 10 ^ (j + ds.length) := by
  induction ds with
  | nil =>
    intro x j hx _
    exact ⟨x, rfl, by simpa using hx⟩
  | cons c rest ih =>
    intro x j hx hj
    have hc := hds c (List.mem_cons_self _ _)
    rw [isDigit_cons_zero] at hc
    simp only [Bool.and_eq_true, decide_eq_true_eq] at hc
    have z : '0'.toNat = 48 := rfl
    have n9 : '9'.toNat = 57 := rfl
    simp only [List.length_cons] at hj
    have hp : 10 ^ j ≤ 10 ^ 8 := Nat.pow_le_pow_right (by norm_num) (by omega)
    have hp8 : (10 : Nat) ^ 8 = 100000000 := by norm_num
    have c1 : (c.toNat < '0'.toNat || decide (c.toNat > '9'.toNat)) = false := by
      rw [z, n9]
      simp only [Bool.or_eq_false_iff, decide_eq_false_iff_not]
      constructor <;> omega
    have c2 : ¬ (x > 9223372036854775808 / 10) := by omega
    have c3 : ¬ (x * 10 + c.toNat - '0'.toNat > 9223372036854775808) := by
      rw [z]; omega
    have hx' : x * 10 + c.toNat - '0'.toNat < 10 ^ (j + 1) := by
      rw [z, Nat.pow_succ]; omega
    rw [leadingInt]
    simp only [c1, Bool.false_eq_true, if_false, c2, c3]
    obtain ⟨q, hq, hlt⟩ := ih (fun c' hc' => hds c' (List.mem_cons_of_mem _ hc')) _ (j + 1) hx'
      (by omega)
    refine ⟨q, hq, ?_⟩
    have : j + (rest.length + 1) = j + 1 + rest.length := by omega
    simp only [List.length_cons]
    rw [this]
    exact hlt

theorem atoi_digits (c : Char) (ds : List Char) (hds : ∀ c' ∈ c :: ds, isDigit [c'] 0 = true)
    (hlen : (c :: ds).length ≤ 9) :
    ∃ q : Nat, atoi (c :: ds) = some (q : Int) ∧ q < 10 ^ (c :: ds).length := by
  have hc := hds c (List.mem_cons_self _ _)
  rw [isDigit_cons_zero] at hc
  simp only [Bool.and_eq_true, decide_eq_true_eq] at hc
  have hs : (decide (c = '-') || decide (c = '+')) = false := by
    have m1 : '-'.toNat = 45 := rfl
    have m2 : '+'.toNat = 43 := rfl
    simp only [Bool.or_eq_false_iff, decide_eq_false_iff_not]
    constructor <;> (intro hc'; rw [hc'] at hc; omega)
  obtain ⟨q, hq, hlt⟩ := leadingInt_digits (c :: ds) hds 0 0 (by norm_num) (by omega)
  refine ⟨q, ?_, by simpa using hlt⟩
  have hp : 10 ^ (0 + (c :: ds).length) ≤ 10 ^ 9 := Nat.pow_le_pow_right (by norm_num) (by omega)
  have hp9 : (10 : Nat) ^ 9 = 1000000000 := by norm_num
  unfold atoi
  simp only [hs, Bool.false_eq_true, if_false, hq]
  rw [toInt64_id _ (by omega) (by omega)]

theorem skip_nil (value : List Char) : skip value [] = some value := rfl

theorem skip_char (c : Char) (rest : List Char) (hc : c ≠ ' ') :
    skip (c :: rest) [c] = some rest := by
  simp [skip, skipLoop, hc]

theorem parseChunk_year (st : ParseState) (n : Nat) (h : n < 10000) (rest : List Char) :
    parseChunk .stdLongYear st (fourDigits n ++ rest) = some ({ st with year := n }, rest) := by
  have h1 : n / 1000 < 10 := by omega
  have hd : isDigit (fourDigits n ++ rest) 0 = true := isDigit_digitChar _ h1 _
  have hl : ¬ ((fourDigits n ++ rest).length < 4) := by
    simp [fourDigits]
  have ht : (fourDigits n ++ rest).take 4 = fourDigits n := by simp [fourDigits]
  have hr : (fourDigits n ++ rest).drop 4 = rest := by simp [fourDigits]
  unfold parseChunk
  simp only [hl, hd, decide_False, Bool.not_true, Bool.or_self, Bool.false_eq_true, if_false,
    ht, hr, atoi_fourDigits n h]

theorem parseChunk_month (st : ParseState) (n : Nat) (h1 : 1 ≤ n) (h2 : n ≤ 12)
    (rest : List Char) :
    parseChunk .stdZeroMonth st (twoDigits n ++ rest) = some ({ st with month := n }, rest) := by
  have c : ((n : Int) ≤ 0 || decide (12 < (n : Int))) = false := by
    simp only [Bool.or_eq_false_iff, decide_eq_false_iff_not]; constructor <;> omega
  unfold parseChunk
  simp only [getnum_twoDigits n (by omega), c, Bool.false_eq_true, if_false]

theorem parseChunk_day (st : ParseState) (n : Nat) (h : n < 100) (rest : List Char) :
    parseChunk .stdZeroDay st (twoDigits n ++ rest) = some ({ st with day := n }, rest) := by
  unfold parseChunk
  simp only [getnum_twoDigits n h]

theorem parseChunk_minute (st : ParseState) (n : Nat) (h : n < 60) (rest : List Char) :
    parseChunk .stdZeroMinute st (twoDigits n ++ rest) = some ({ st with min := n }, rest) := by
  have c : ((n : Int) < 0 || decide (60 ≤ (n : Int))) = false := by
    simp only [Bool.or_eq_false_iff, decide_eq_false_iff_not]; constructor <;> omega
  unfold parseChunk
  simp only [getnum_twoDigits n (by omega), c, Bool.false_eq_true, if_false]

theorem parseChunk_hour (st : ParseState) (s : Stamp) (h : s.hour < 24)
    (hs : s.shortHour = true → s.hour < 10) (rest : List Char) :
    parseChunk .stdHour st (s.hourText ++ ':' :: rest)
      = some ({ st with hour := s.hour }, ':' :: rest) := by
  have c : ((s.hour : Int) < 0 || decide (24 ≤ (s.hour : Int))) = false := by
    simp only [Bool.or_eq_false_iff, decide_eq_false_iff_not]; constructor <;> omega
  have hg : getnum (s.hourText ++ ':' :: rest) false = some ((s.hour : Int), ':' :: rest) := by
    unfold Stamp.hourText
    cases hsh : s.shortHour
    · simp only [Bool.false_eq_true, if_false]
      exact getnum_twoDigits _ (by omega) _ _
    · simp only [if_true, List.cons_append, List.nil_append]
      exact getnum_oneDigit _ (hs hsh) _ (by rw [isDigit_cons_zero]; decide)
  unfold parseChunk
  simp only [hg, c, Bool.false_eq_true, if_false]



theorem digitRun_append (ds tail : List Char) (hds : ∀ c ∈ ds, isDigit [c] 0 = true)
    (ht : isDigit tail 0 = false) : digitRun (ds ++ tail) = ds.length := by
  induction ds with
  | nil =>
    cases tail with
    | nil => rfl
    | cons c rest =>
      have : isDigit [c] 0 = false := ht
      simp only [List.nil_append, digitRun, this, Bool.false_eq_true, if_false, List.length_nil]
  | cons c rest ih =>
    have hc := hds c (List.mem_cons_self _ _)
    have ih' := ih (fun c' hc' => hds c' (List.mem_cons_of_mem _ hc'))
    show digitRun (c :: (rest ++ tail)) = (c :: rest).length
    rw [digitRun, if_pos hc, ih', List.length_cons]

theorem parseNanoseconds_frac (sep c : Char) (ds tail : List Char)
    (hsep : sep = '.' ∨ sep = ',') (hds : ∀ c' ∈ c :: ds, isDigit [c'] 0 = true) :
    ∃ ns : Nat, ns < 1000000000 ∧
      parseNanoseconds (sep :: c :: (ds ++ tail)) (2 + ds.length) = some (ns : Int) := by
  have hcp : commaOrPeriod sep = true := by
    rcases hsep with h | h <;> (rw [h]; decide)
  unfold parseNanoseconds
  simp only [hcp, Bool.not_true, Bool.false_eq_true, if_false]
  by_cases hk : 2 + ds.length > 10
  · simp only [hk, if_true]
    have e : (List.take 10 (List.take 10 (sep :: c :: (ds ++ tail)))).drop 1 = c :: ds.take 8 := by
      simp only [List.take_take, min_self, List.take_succ_cons, List.drop_succ_cons, List.drop_zero,
        List.cons.injEq, true_and]
      rw [List.take_append_of_le_length (by omega)]
    have hd8 : ∀ c' ∈ c :: ds.take 8, isDigit [c'] 0 = true := by
      intro c' hc'
      rcases List.mem_cons.mp hc' with h | h
      · exact hds c' (h ▸ List.mem_cons_self _ _)
      · exact hds c' (List.mem_cons_of_mem _ (List.mem_of_mem_take h))
    have hl8 : (c :: ds.take 8).length = 9 := by
      simp only [List.length_cons, List.length_take]; omega
    obtain ⟨q, hq, hlt⟩ := atoi_digits c (ds.take 8) hd8 (by omega)
    rw [hl8] at hlt
    rw [e, hq]
    have hneg : ¬ ((q : Int) < 0) := by omega
    simp only [hneg, if_false]
    refine ⟨q, by norm_num at hlt; exact hlt, ?_⟩
    simp
  · simp only [hk, if_false]
    have e : (List.take (2 + ds.length) (sep :: c :: (ds ++ tail))).drop 1 = c :: ds := by
      have : 2 + ds.length = (ds.length + 1) + 1 := by omega
      rw [this]
      simp only [List.take_succ_cons, List.drop_succ_cons, List.drop_zero, List.cons.injEq,
        true_and]
      rw [List.take_append_of_le_length (le_refl _), List.take_length]
    obtain ⟨q, hq, hlt⟩ := atoi_digits c ds hds (by simp only [List.length_cons]; omega)
    rw [e, hq]
    have hneg : ¬ ((q : Int) < 0) := by omega
    simp only [hneg, if_false]
    simp only [List.length_cons] at hlt
    refine ⟨q * 10 ^ (10 - (2 + ds.length)), ?_, by push_cast; rfl⟩
    have hp : q * 10 ^ (10 - (2 + ds.length)) < 10 ^ (ds.length + 1) * 10 ^ (10 - (2 + ds.length)) :=
      Nat.mul_lt_mul_of_pos_right hlt (Nat.pow_pos (by norm_num))
    rw [← Nat.pow_add] at hp
    have : ds.length + 1 + (10 - (2 + ds.length)) = 9 := by omega
    rw [this] at hp
    norm_num at hp
    exact hp

theorem offsetText_cons (s : Stamp) :
    ∃ c0 c1 rest, s.offsetText = c0 :: c1 :: rest ∧ commaOrPeriod c0 = false ∧
      isDigit s.offsetText 0 = false := by
  unfold Stamp.offsetText twoDigits
  cases s.east
  · exact ⟨_, _, _, rfl, by decide, by rw [isDigit_cons_zero]; decide⟩
  · exact ⟨_, _, _, rfl, by decide, by rw [isDigit_cons_zero]; decide⟩

theorem parseChunk_second (st : ParseState) (s : Stamp) (hw : s.wellFormed)
    (hn0 : 0 ≤ st.nsec) (hn1 : st.nsec < 1000000000) :
    ∃ nsec : Int, 0 ≤ nsec ∧ nsec < 1000000000 ∧
      parseChunk .stdZeroSecond st (twoDigits s.sec ++ (s.fracText ++ s.offsetText))
        = some ({ st with sec := s.sec, nsec := nsec }, s.offsetText) := by
  obtain ⟨_, _, _, _, _, _, _, _, hsec, hsep, hfrac, _, _⟩ := hw
  have c : ((s.sec : Int) < 0 || decide (60 ≤ (s.sec : Int))) = false := by
    simp only [Bool.or_eq_false_iff, decide_eq_false_iff_not]; constructor <;> omega
  obtain ⟨c0, c1, rest, ho, hcp, hnd⟩ := offsetText_cons s
  unfold parseChunk
  simp only [getnum_twoDigits s.sec (by omega), c, Bool.false_eq_true, if_false]
  unfold Stamp.fracText
  cases hf : s.frac with
  | nil =>
    refine ⟨st.nsec, hn0, hn1, ?_⟩
    simp only [List.nil_append, ho, hcp, Bool.false_and, Bool.false_eq_true, if_false]
  | cons d ds =>
    rw [hf] at hfrac
    have hcp' : commaOrPeriod s.sep = true := by
      rcases hsep with h | h <;> (rw [h]; decide)
    have hd1 : isDigit (s.sep :: d :: (ds ++ s.offsetText)) 1 = true := by
      rw [isDigit_cons_succ]
      exact hfrac d (List.mem_cons_self _ _)
    have hrun := digitRun_append ds s.offsetText
      (fun c' hc' => hfrac c' (List.mem_cons_of_mem _ hc')) hnd
    obtain ⟨ns, hns, hp⟩ := parseNanoseconds_frac s.sep d ds s.offsetText hsep hfrac
    refine ⟨ns, by omega, by omega, ?_⟩
    have hdrop : List.drop (2 + ds.length) (s.sep :: d :: (ds ++ s.offsetText)) = s.offsetText := by
      have : 2 + ds.length = (ds.length + 1) + 1 := by omega
      rw [this]
      simp only [List.drop_succ_cons]
      exact List.drop_left _ _
    simp only [List.cons_append, hcp', hd1, Bool.and_self, if_true, hrun, hp, hdrop]

theorem parseChunk_zone (st : ParseState) (s : Stamp) (h1 : s.offHour ≤ 24) (h2 : s.offMin ≤ 60) :
    parseChunk .stdNumColonTZ st s.offsetText = some ({ st with zoneOffset := s.zoneOffset }, []) := by
  have g1 := getnum_twoDigits s.offHour (by omega) true []
  have g2 := getnum_twoDigits s.offMin (by omega) true []
  have c : (decide ((s.offHour : Int) > 24) || decide ((s.offMin : Int) > 60)) = false := by
    simp only [Bool.or_eq_false_iff, decide_eq_false_iff_not]; constructor <;> omega
  unfold parseChunk Stamp.offsetText Stamp.zoneOffset
  simp only [List.append_nil] at g1 g2
  have e1 : ¬ (((if s.east = true then '+' else '-') ::
      (twoDigits s.offHour ++ ':' :: twoDigits s.offMin)).length < 6) := by
    simp [twoDigits]
  have e2 : ((List.drop 3 ((if s.east = true then '+' else '-') ::
      (twoDigits s.offHour ++ ':' :: twoDigits s.offMin))).head? ≠ some ':') = False := by
    simp [twoDigits]
  have e3 : List.take 2 (List.drop 1 ((if s.east = true then '+' else '-') ::
      (twoDigits s.offHour ++ ':' :: twoDigits s.offMin))) = twoDigits s.offHour := by
    simp [twoDigits]
  have e4 : List.take 2 (List.drop 4 ((if s.east = true then '+' else '-') ::
      (twoDigits s.offHour ++ ':' :: twoDigits s.offMin))) = twoDigits s.offMin := by
    simp [twoDigits]
  have e5 : List.drop 6 ((if s.east = true then '+' else '-') ::
      (twoDigits s.offHour ++ ':' :: twoDigits s.offMin)) = [] := by
    simp [twoDigits]
  have e6 : List.take 1 ((if s.east = true then '+' else '-') ::
      (twoDigits s.offHour ++ ':' :: twoDigits s.offMin)) = [if s.east = true then '+' else '-'] := by
    simp
  simp only [e1, e2, e3, e4, e5, e6, if_false, g1, g2, c, Bool.false_eq_true]
  cases s.east <;> simp

theorem parseLoop_text (s : Stamp) (hw : s.wellFormed) :
    ∃ nsec : Int, 0 ≤ nsec ∧ nsec < 1000000000 ∧
      parseLoop initialLayout [] {} s.text =
        some { year := s.year, month := s.month, day := s.day, hour := s.hour, min := s.min,
               sec := s.sec, nsec := nsec, zoneOffset := s.zoneOffset } := by
  have hw' := hw
  obtain ⟨hy, hm1, hm2, hd1, hd2, hh, hsh, hmi, hsec, hsep, hfrac, ho1, ho2⟩ := hw'
  have hd3 := daysIn_le s.month s.year hm1 hm2
  obtain ⟨nsec, hn0, hn1, hsecC⟩ := parseChunk_second
    { year := s.year, month := s.month, day := s.day, hour := s.hour, min := s.min } s hw
    (by show (0 : Int) ≤ 0; omega) (by show (0 : Int) < 1000000000; omega)
  refine ⟨nsec, hn0, hn1, ?_⟩
  have e0 : "".toList = [] := rfl
  have e1 : "-".toList = ['-'] := rfl
  have e2 : "T".toList = ['T'] := rfl
  have e3 : ":".toList = [':'] := rfl
  unfold Stamp.text initialLayout
  simp only [parseLoop, e0, e1, e2, e3, skip_nil, parseChunk_year _ s.year hy,
    skip_char '-' _ (by decide), parseChunk_month _ s.month hm1 hm2,
    parseChunk_day _ s.day (by omega), skip_char 'T' _ (by decide),
    parseChunk_hour _ s hh hsh, skip_char ':' _ (by decide), parseChunk_minute _ s.min hmi,
    hsecC, parseChunk_zone _ s ho1 ho2, List.length_nil, ne_eq, not_true_eq_false, if_false]

theorem parse_text (lo : Int → Int) (s : Stamp) (hw : s.wellFormed) :
    ∃ t, parse lo s.text = some t ∧
      t.abs lo = absSeconds s.year s.month s.day s.hour s.min s.sec := by
  obtain ⟨nsec, hn0, hn1, hp⟩ := parseLoop_text s hw
  obtain ⟨hy, hm1, hm2, hd1, hd2, hh, hsh, hmi, hsec, hsep, hfrac, ho1, ho2⟩ := hw
  unfold parse
  rw [hp]
  have hz : -90000 ≤ s.zoneOffset ∧ s.zoneOffset ≤ 90000 := by
    unfold Stamp.zoneOffset
    split_ifs <;> constructor <;> omega
  exact parseFinish_abs lo _ (s.year : Int) s.month s.day s.hour s.min s.sec nsec.toNat
    rfl rfl rfl rfl rfl rfl (by simp only []; omega) (by omega) (by omega) hm1 hm2 hd1 hd2 hh hmi hsec
    (by omega) hz.1 hz.2

theorem Parse_text (lo : Int → Int) (s : Stamp) (hw : s.wellFormed) :
    (Parse lo (String.mk s.text)).2 = none ∧
      (Parse lo (String.mk s.text)).1.Format lo
        = displayDate s.year s.month s.day s.hour s.min := by
  obtain ⟨t, hp, habs⟩ := parse_text lo s hw
  obtain ⟨hy, hm1, hm2, hd1, hd2, hh, hsh, hmi, hsec, hsep, hfrac, ho1, ho2⟩ := hw
  have e : (String.mk s.text).toList = s.text := rfl
  unfold Parse
  rw [e, hp]
  exact ⟨rfl, Format_of_abs lo t s.year s.month s.day s.hour s.min s.sec (by omega) (by omega)
    hm1 hm2 hd1 hd2 hh hmi hsec habs⟩

theorem digit_inv (c : Char) (h : isDigit [c] 0 = true) :
    ∃ k, k < 10 ∧ c = digitChar k ∧ digitVal c = (k : Int) := by
  rw [isDigit_cons_zero] at h
  simp only [Bool.and_eq_true, decide_eq_true_eq] at h
  refine ⟨c.toNat - 48, by omega, ?_, ?_⟩
  · unfold digitChar
    have z : '0'.toNat = 48 := rfl
    rw [z]
    have : 48 + (c.toNat - 48) = c.toNat := by omega
    rw [this, Char.ofNat_toNat]
  · unfold digitVal
    have z : '0'.toNat = 48 := rfl
    rw [z]

theorem twoDigits_pair (a b : Nat) (hb : b < 10) :
    twoDigits (a * 10 + b) = [digitChar a, digitChar b] := by
  unfold twoDigits
  have e1 : (a * 10 + b) / 10 = a := by omega
  have e2 : (a * 10 + b) % 10 = b := by omega
  rw [e1, e2]

theorem skip_char_inv (c : Char) (value rest : List Char) (hc : c ≠ ' ')
    (h : skip value [c] = some rest) : value = c :: rest := by
  cases value with
  | nil => simp [skip, skipLoop, hc] at h
  | cons v vs =>
    simp only [skip, skipLoop, List.length_cons, List.length_nil, hc, if_false] at h
    by_cases hv : v = c
    · subst hv
      simp only [ne_eq, not_true_eq_false, if_false, Option.some.injEq] at h
      rw [h]
    · simp [hv] at h

theorem getnum_inv (s rest : List Char) (fixed : Bool) (n : Int)
    (h : getnum s fixed = some (n, rest)) :
    ∃ k : Nat, n = (k : Int) ∧
      ((k < 100 ∧ s = twoDigits k ++ rest) ∨
       (fixed = false ∧ k < 10 ∧ s = digitChar k :: rest ∧ isDigit rest 0 = false)) := by
  unfold getnum at h
  cases s with
  | nil => simp [isDigit] at h
  | cons c0 tl =>
    by_cases h0 : isDigit (c0 :: tl) 0 = true
    · have h0' : isDigit [c0] 0 = true := h0
      obtain ⟨a, ha, hca, hva⟩ := digit_inv c0 h0'
      by_cases h1 : isDigit (c0 :: tl) 1 = true
      · cases tl with
        | nil => simp [isDigit] at h1
        | cons c1 tl' =>
          have h1' : isDigit [c1] 0 = true := h1
          obtain ⟨b, hb, hcb, hvb⟩ := digit_inv c1 h1'
          simp only [h0, h1, Bool.not_true, Bool.false_eq_true, if_false, Option.some.injEq,
            Prod.mk.injEq] at h
          refine ⟨a * 10 + b, ?_, Or.inl ⟨by omega, ?_⟩⟩
          · rw [← h.1, hva, hvb]; push_cast; ring
          · rw [twoDigits_pair a b hb, hca, hcb, h.2]; rfl
      · have h1f : isDigit (c0 :: tl) 1 = false := by simpa using h1
        simp only [h0, h1f, Bool.not_true, Bool.false_eq_true, if_false, Bool.not_false,
          if_true] at h
        cases fixed with
        | true => simp at h
        | false =>
          simp only [Bool.false_eq_true, if_false, Option.some.injEq, Prod.mk.injEq] at h
          refine ⟨a, ?_, Or.inr ⟨rfl, ha, ?_, ?_⟩⟩
          · rw [← h.1, hva]
          · rw [hca, h.2]
          · rw [← h.2]; exact h1f
    · have h0f : isDigit (c0 :: tl) 0 = false := by simpa using h0
      simp [h0f] at h

theorem leadingInt_all_digits (l : List Char) :
    ∀ (x q : Nat), leadingInt x l = some (q, []) → ∀ c ∈ l, isDigit [c] 0 = true := by
  induction l with
  | nil => intro x q _ c hc; exact absurd hc (List.not_mem_nil _)
  | cons c0 rest ih =>
    intro x q h c hc
    rw [leadingInt] at h
    have z : '0'.toNat = 48 := rfl
    have n9 : '9'.toNat = 57 := rfl
    cases hd : (decide (c0.toNat < '0'.toNat) || decide (c0.toNat > '9'.toNat)) with
    | true =>
      rw [if_pos hd] at h
      simp only [Option.some.injEq, Prod.mk.injEq] at h
      exact absurd h.2 (List.cons_ne_nil _ _)
    | false =>
      have hd' : isDigit [c0] 0 = true := by
        rw [isDigit_cons_zero]
        rw [z, n9] at hd
        simp only [Bool.or_eq_false_iff, decide_eq_false_iff_not] at hd
        simp only [Bool.and_eq_true, decide_eq_true_eq]
        omega
      simp only [hd, Bool.false_eq_true, if_false] at h
      by_cases h2 : x > 9223372036854775808 / 10
      · rw [if_pos h2] at h
        exact absurd h (by simp)
      · rw [if_neg h2] at h
        by_cases h3 : x * 10 + c0.toNat - '0'.toNat > 9223372036854775808
        · rw [if_pos h3] at h
          exact absurd h (by simp)
        · rw [if_neg h3] at h
          rcases List.mem_cons.mp hc with h1 | h1
          · rw [h1]; exact hd'
          · exact ih _ _ h c h1

theorem fourDigits_quad (a b c d : Nat) (hb : b < 10) (hc : c < 10) (hd : d < 10) :
    fourDigits (((a * 10 + b) * 10 + c) * 10 + d)
      = [digitChar a, digitChar b, digitChar c, digitChar d] := by
  unfold fourDigits
  have e1 : (((a * 10 + b) * 10 + c) * 10 + d) / 1000 = a := by omega
  have e2 : (((a * 10 + b) * 10 + c) * 10 + d) / 100 % 10 = b := by omega
  have e3 : (((a * 10 + b) * 10 + c) * 10 + d) / 10 % 10 = c := by omega
  have e4 : (((a * 10 + b) * 10 + c) * 10 + d) % 10 = d := by omega
  rw [e1, e2, e3, e4]

theorem parseChunk_year_inv (st st' : ParseState) (value rest : List Char)
    (h : parseChunk .stdLongYear st value = some (st', rest)) :
    ∃ k : Nat, k < 10000 ∧ st' = { st with year := k } ∧ value = fourDigits k ++ rest := by
  unfold parseChunk at h
  simp only at h
  split_ifs at h with hc
  simp only [Bool.or_eq_true, decide_eq_true_eq, Bool.not_eq_true', not_or, not_lt,
    Bool.not_eq_false] at hc
  obtain ⟨hlen, hd0⟩ := hc
  obtain ⟨c0, c1, c2, c3, tl, hv⟩ : ∃ c0 c1 c2 c3 tl, value = c0 :: c1 :: c2 :: c3 :: tl := by
    match value, hlen with
    | c0 :: c1 :: c2 :: c3 :: tl, _ => exact ⟨c0, c1, c2, c3, tl, rfl⟩
  subst hv
  have ht : List.take 4 (c0 :: c1 :: c2 :: c3 :: tl) = [c0, c1, c2, c3] := rfl
  have hdr : List.drop 4 (c0 :: c1 :: c2 :: c3 :: tl) = tl := rfl
  rw [ht, hdr] at h
  have hd0' : isDigit [c0] 0 = true := hd0
  obtain ⟨a, ha, hca, _⟩ := digit_inv c0 hd0'
  have hs : (decide (c0 = '-') || decide (c0 = '+')) = false := by
    have e := digitChar_toNat a ha
    rw [← hca] at e
    have m1 : '-'.toNat = 45 := rfl
    have m2 : '+'.toNat = 43 := rfl
    simp only [Bool.or_eq_false_iff, decide_eq_false_iff_not]
    constructor <;> (intro hc'; rw [hc'] at e; omega)
  cases hat : atoi [c0, c1, c2, c3] with
  | none => simp [hat] at h
  | some year =>
    simp only [hat, Option.some.injEq, Prod.mk.injEq] at h
    unfold atoi at hat
    simp only [hs, Bool.false_eq_true, if_false] at hat
    cases hli : leadingInt 0 [c0, c1, c2, c3] with
    | none => simp [hli] at hat
    | some qr =>
      obtain ⟨q, r⟩ := qr
      cases r with
      | cons _ _ => simp [hli] at hat
      | nil =>
        simp only [hli, Option.some.injEq] at hat
        have hall := leadingInt_all_digits _ _ _ hli
        obtain ⟨b, hb, hcb, _⟩ := digit_inv c1 (hall c1 (by simp))
        obtain ⟨c, hc, hcc, _⟩ := digit_inv c2 (hall c2 (by simp))
        obtain ⟨d, hd, hcd, _⟩ := digit_inv c3 (hall c3 (by simp))
        rw [hca, hcb, hcc, hcd, leadingInt_digit 0 _ ha (by omega),
          leadingInt_digit _ _ hb (by omega), leadingInt_digit _ _ hc (by omega),
          leadingInt_digit _ _ hd (by omega), leadingInt] at hli
        simp only [Option.some.injEq, Prod.mk.injEq, and_true] at hli
        refine ⟨((a * 10 + b) * 10 + c) * 10 + d, by omega, ?_, ?_⟩
        · rw [← h.1, ← hat, ← hli, toInt64_id _ (by omega) (by omega)]
          simp
        · rw [fourDigits_quad a b c d hb hc hd, hca, hcb, hcc, hcd, h.2]
          rfl

theorem parseChunk_month_inv (st st' : ParseState) (value rest : List Char)
    (h : parseChunk .stdZeroMonth st value = some (st', rest)) :
    ∃ k : Nat, 1 ≤ k ∧ k ≤ 12 ∧ st' = { st with month := k } ∧ value = twoDigits k ++ rest := by
  unfold parseChunk at h
  simp only at h
  cases hg : getnum value true with
  | none => simp [hg] at h
  | some p =>
    obtain ⟨n, r⟩ := p
    obtain ⟨k, hn, hk⟩ := getnum_inv _ _ _ _ hg
    simp only [hg] at h
    split_ifs at h with hc
    simp only [Bool.or_eq_true, decide_eq_true_eq, not_or, not_le, not_lt] at hc
    simp only [Option.some.injEq, Prod.mk.injEq] at h
    rcases hk with ⟨_, hv⟩ | ⟨hf, _⟩
    · exact ⟨k, by omega, by omega, by rw [← h.1, hn], by rw [hv, h.2]⟩
    · exact absurd hf (by decide)

theorem parseChunk_day_inv (st st' : ParseState) (value rest : List Char)
    (h : parseChunk .stdZeroDay st value = some (st', rest)) :
    ∃ k : Nat, k < 100 ∧ st' = { st with day := k } ∧ value = twoDigits k ++ rest := by
  unfold parseChunk at h
  simp only at h
  cases hg : getnum value true with
  | none => simp [hg] at h
  | some p =>
    obtain ⟨n, r⟩ := p
    obtain ⟨k, hn, hk⟩ := getnum_inv _ _ _ _ hg
    simp only [hg, Option.some.injEq, Prod.mk.injEq] at h
    rcases hk with ⟨hk, hv⟩ | ⟨hf, _⟩
    · exact ⟨k, hk, by rw [← h.1, hn], by rw [hv, h.2]⟩
    · exact absurd hf (by decide)

theorem parseChunk_minute_inv (st st' : ParseState) (value rest : List Char)
    (h : parseChunk .stdZeroMinute st value = some (st', rest)) :
    ∃ k : Nat, k < 60 ∧ st' = { st with min := k } ∧ value = twoDigits k ++ rest := by
  unfold parseChunk at h
  simp only at h
  cases hg : getnum value true with
  | none => simp [hg] at h
  | some p =>
    obtain ⟨n, r⟩ := p
    obtain ⟨k, hn, hk⟩ := getnum_inv _ _ _ _ hg
    simp only [hg] at h
    split_ifs at h with hc
    simp only [Bool.or_eq_true, decide_eq_true_eq, not_or, not_le, not_lt] at hc
    simp only [Option.some.injEq, Prod.mk.injEq] at h
    rcases hk with ⟨_, hv⟩ | ⟨hf, _⟩
    · exact ⟨k, by omega, by rw [← h.1, hn], by rw [hv, h.2]⟩
    · exact absurd hf (by decide)

theorem parseChunk_hour_inv (st st' : ParseState) (value rest : List Char)
    (h : parseChunk .stdHour st value = some (st', rest)) :
    ∃ (k : Nat) (sh : Bool), k < 24 ∧ (sh = true → k < 10) ∧ st' = { st with hour := k } ∧
      value = (if sh then [digitChar k] else twoDigits k) ++ rest := by
  unfold parseChunk at h
  simp only at h
  cases hg : getnum value false with
  | none => simp [hg] at h
  | some p =>
    obtain ⟨n, r⟩ := p
    obtain ⟨k, hn, hk⟩ := getnum_inv _ _ _ _ hg
    simp only [hg] at h
    split_ifs at h with hc
    simp only [Bool.or_eq_true, decide_eq_true_eq, not_or, not_le, not_lt] at hc
    simp only [Option.some.injEq, Prod.mk.injEq] at h
    rcases hk with ⟨_, hv⟩ | ⟨_, hk10, hv, _⟩
    · exact ⟨k, false, by omega, by intro hc'; exact absurd hc' (by decide),
        by rw [← h.1, hn], by rw [hv, h.2]; rfl⟩
    · exact ⟨k, true, by omega, fun _ => hk10, by rw [← h.1, hn], by rw [hv, h.2]; rfl⟩

theorem digitRun_le (l : List Char) : digitRun l ≤ l.length := by
  induction l with
  | nil => exact le_refl _
  | cons c rest ih =>
    rw [digitRun]
    split_ifs
    · simp only [List.length_cons]; omega
    · omega

theorem digitRun_take (l : List Char) : ∀ c ∈ l.take (digitRun l), isDigit [c] 0 = true := by
  induction l with
  | nil => intro c hc; simp [digitRun] at hc
  | cons c0 rest ih =>
    intro c hc
    rw [digitRun] at hc
    split_ifs at hc with h0
    · rw [List.take_succ_cons] at hc
      rcases List.mem_cons.mp hc with h1 | h1
      · rw [h1]; exact h0
      · exact ih c h1
    · simp at hc

theorem commaOrPeriod_inv (c : Char) (h : commaOrPeriod c = true) : c = '.' ∨ c = ',' := by
  unfold commaOrPeriod at h
  simpa using h

theorem parseChunk_second_inv (st st' : ParseState) (value rest : List Char)
    (hn0 : 0 ≤ st.nsec) (hn1 : st.nsec < 1000000000)
    (h : parseChunk .stdZeroSecond st value = some (st', rest)) :
    ∃ (k : Nat) (sep : Char) (frac : List Char) (nsec : Int), k < 60 ∧ 0 ≤ nsec ∧
      nsec < 1000000000 ∧ (sep = '.' ∨ sep = ',') ∧ (∀ c ∈ frac, isDigit [c] 0 = true) ∧
      st' = { st with sec := k, nsec := nsec } ∧
      value = twoDigits k ++ ((match frac with | [] => [] | c :: ds => sep :: c :: ds) ++ rest) := by
  unfold parseChunk at h
  simp only at h
  cases hg : getnum value true with
  | none => simp [hg] at h
  | some p =>
    obtain ⟨n, r⟩ := p
    obtain ⟨k, hn, hk⟩ := getnum_inv _ _ _ _ hg
    simp only [hg] at h
    split_ifs at h with hc
    simp only [Bool.or_eq_true, decide_eq_true_eq, not_or, not_le, not_lt] at hc
    rcases hk with ⟨_, hv⟩ | ⟨hf, _⟩
    swap
    · exact absurd hf (by decide)
    have plain : some (({ st with sec := n } : ParseState), r) = some (st', rest) →
        ∃ (k : Nat) (sep : Char) (frac : List Char) (nsec : Int), k < 60 ∧ 0 ≤ nsec ∧
          nsec < 1000000000 ∧ (sep = '.' ∨ sep = ',') ∧ (∀ c ∈ frac, isDigit [c] 0 = true) ∧
          st' = { st with sec := k, nsec := nsec } ∧
          value = twoDigits k ++ ((match frac with | [] => [] | c :: ds => sep :: c :: ds) ++ rest) := by
      intro h'
      simp only [Option.some.injEq, Prod.mk.injEq] at h'
      refine ⟨k, '.', [], st.nsec, by omega, hn0, hn1, Or.inl rfl,
        fun c hc => absurd hc (List.not_mem_nil _), ?_, ?_⟩
      · rw [← h'.1, hn]
      · rw [hv, h'.2]; rfl
    match r, hv, h with
    | [], hv, h => exact plain h
    | [c0], hv, h => exact plain h
    | c0 :: c1 :: rest0, hv, h =>
      simp only at h
      split_ifs at h with hfr
      · simp only [Bool.and_eq_true] at hfr
        have hsep := commaOrPeriod_inv c0 hfr.1
        have hd1 : isDigit [c1] 0 = true := hfr.2
        have hrun := digitRun_le rest0
        have htk := digitRun_take rest0
        have hsplit : rest0 = rest0.take (digitRun rest0) ++ rest0.drop (digitRun rest0) :=
          (List.take_append_drop _ _).symm
        have hfrac : ∀ c ∈ c1 :: rest0.take (digitRun rest0), isDigit [c] 0 = true := by
          intro c hc
          rcases List.mem_cons.mp hc with h1 | h1
          · rw [h1]; exact hd1
          · exact htk c h1
        obtain ⟨ns, hns, hp⟩ := parseNanoseconds_frac c0 c1 (rest0.take (digitRun rest0))
          (rest0.drop (digitRun rest0)) hsep hfrac
        have hlen : (rest0.take (digitRun rest0)).length = digitRun rest0 := by
          rw [List.length_take]; omega
        rw [← hsplit, hlen] at hp
        rw [hp] at h
        simp only [Option.some.injEq, Prod.mk.injEq] at h
        refine ⟨k, c0, c1 :: rest0.take (digitRun rest0), ns, by omega, by omega, by omega,
          hsep, hfrac, ?_, ?_⟩
        · rw [← h.1, hn]
        · rw [hv, ← h.2]
          have : List.drop (2 + digitRun rest0) (c0 :: c1 :: rest0)
              = rest0.drop (digitRun rest0) := by
            have e : 2 + digitRun rest0 = (digitRun rest0 + 1) + 1 := by omega
            rw [e]; rfl
          rw [this]
          simp only [List.cons_append]
          rw [← hsplit]
      · exact plain h

theorem parseChunk_zone_inv (st st' : ParseState) (value rest : List Char)
    (h : parseChunk .stdNumColonTZ st value = some (st', rest)) :
    ∃ (east : Bool) (oh om : Nat), oh ≤ 24 ∧ om ≤ 60 ∧
      st' = { st with zoneOffset :=
        if east then ((oh : Int) * 60 + om) * 60 + 0 else -(((oh : Int) * 60 + om) * 60 + 0) } ∧
      value = (if east then '+' else '-') :: (twoDigits oh ++ ':' :: twoDigits om) ++ rest := by
  unfold parseChunk at h
  simp only at h
  by_cases hlen : value.length < 6
  · rw [if_pos hlen] at h
    exact absurd h (by simp)
  rw [if_neg hlen] at h
  by_cases hcol : (List.drop 3 value).head? ≠ some ':'
  · rw [if_pos hcol] at h
    exact absurd h (by simp)
  rw [if_neg hcol] at h
  simp only [not_lt] at hlen
  obtain ⟨c0, c1, c2, c3, c4, c5, tl, hv⟩ :
      ∃ c0 c1 c2 c3 c4 c5 tl, value = c0 :: c1 :: c2 :: c3 :: c4 :: c5 :: tl := by
    match value, hlen with
    | c0 :: c1 :: c2 :: c3 :: c4 :: c5 :: tl, _ => exact ⟨c0, c1, c2, c3, c4, c5, tl, rfl⟩
  subst hv
  simp only [List.drop_succ_cons, List.drop_zero, List.head?_cons, ne_eq, Option.some.injEq,
    not_not] at hcol
  simp only [List.drop_succ_cons, List.drop_zero, List.take_succ_cons, List.take_zero] at h
  cases hg1 : getnum [c1, c2] true with
  | none => simp [hg1] at h
  | some p1 =>
    obtain ⟨hr, r1⟩ := p1
    cases hg2 : getnum [c4, c5] true with
    | none => simp [hg1, hg2] at h
    | some p2 =>
      obtain ⟨mm, r2⟩ := p2
      simp only [hg1, hg2] at h
      obtain ⟨oh, hoh, hk1⟩ := getnum_inv _ _ _ _ hg1
      obtain ⟨om, hom, hk2⟩ := getnum_inv _ _ _ _ hg2
      rcases hk1 with ⟨_, hv1⟩ | ⟨hf, _⟩
      swap
      · exact absurd hf (by decide)
      rcases hk2 with ⟨_, hv2⟩ | ⟨hf, _⟩
      swap
      · exact absurd hf (by decide)
      have e1 : twoDigits oh = [c1, c2] := by
        unfold twoDigits at hv1 ⊢
        simp only [List.cons_append, List.nil_append, List.cons.injEq] at hv1
        rw [hv1.1, hv1.2.1]
      have e2 : twoDigits om = [c4, c5] := by
        unfold twoDigits at hv2 ⊢
        simp only [List.cons_append, List.nil_append, List.cons.injEq] at hv2
        rw [hv2.1, hv2.2.1]
      by_cases hrange : (decide (hr > 24) || decide (mm > 60)) = true
      · rw [if_pos hrange] at h
        exact absurd h (by simp)
      rw [if_neg hrange] at h
      simp only [Bool.or_eq_true, decide_eq_true_eq, not_or, not_lt] at hrange
      by_cases hplus : [c0] = ['+']
      · rw [if_pos hplus] at h
        simp only [Option.some.injEq, Prod.mk.injEq, List.cons.injEq, and_true] at h hplus
        refine ⟨true, oh, om, by omega, by omega, ?_, ?_⟩
        · rw [← h.1, hoh, hom]; rfl
        · rw [e1, e2, hplus, hcol, ← h.2]; rfl
      · rw [if_neg hplus] at h
        by_cases hminus : [c0] = ['-']
        · rw [if_pos hminus] at h
          simp only [Option.some.injEq, Prod.mk.injEq, List.cons.injEq, and_true] at h hminus
          refine ⟨false, oh, om, by omega, by omega, ?_, ?_⟩
          · rw [← h.1, hoh, hom]; rfl
          · rw [e1, e2, hminus, hcol, ← h.2]; rfl
        · rw [if_neg hminus] at h
          exact absurd h (by simp)

theorem parseLoop_cons_inv (pfx : List Char) (std : ParseStd)
    (chunks : List (List Char × ParseStd)) (rest : List Char) (st st' : ParseState)
    (value : List Char) (h : parseLoop ((pfx, std) :: chunks) rest st value = some st') :
    ∃ v1 st1 v2, skip value pfx = some v1 ∧ parseChunk std st v1 = some (st1, v2) ∧
      parseLoop chunks rest st1 v2 = some st' := by
  rw [parseLoop] at h
  cases hs : skip value pfx with
  | none => simp [hs] at h
  | some v1 =>
    simp only [hs] at h
    cases hc : parseChunk std st v1 with
    | none => simp [hc] at h
    | some p =>
      obtain ⟨st1, v2⟩ := p
      simp only [hc] at h
      exact ⟨v1, st1, v2, rfl, hc, h⟩

theorem parseLoop_nil_inv (st st' : ParseState) (value : List Char)
    (h : parseLoop [] [] st value = some st') : value = [] ∧ st' = st := by
  rw [parseLoop, skip_nil] at h
  simp only at h
  split_ifs at h with hl
  simp only [ne_eq, List.length_eq_zero, not_not] at hl
  simp only [Option.some.injEq] at h
  exact ⟨hl, h.symm⟩

theorem parseLoop_inv (value : List Char) (st : ParseState)
    (h : parseLoop initialLayout [] {} value = some st) :
    ∃ (s : Stamp) (nsec : Int), value = s.text ∧ 0 ≤ nsec ∧ nsec < 1000000000 ∧
      s.year < 10000 ∧ 1 ≤ s.month ∧ s.month ≤ 12 ∧ s.day < 100 ∧
      s.hour < 24 ∧ (s.shortHour = true → s.hour < 10) ∧ s.min < 60 ∧ s.sec < 60 ∧
      (s.sep = '.' ∨ s.sep = ',') ∧ (∀ c ∈ s.frac, isDigit [c] 0 = true) ∧
      s.offHour ≤ 24 ∧ s.offMin ≤ 60 ∧
      st = { year := s.year, month := s.month, day := s.day, hour := s.hour, min := s.min,
             sec := s.sec, nsec := nsec, zoneOffset := s.zoneOffset } := by
  have e0 : "".toList = [] := rfl
  have e1 : "-".toList = ['-'] := rfl
  have e2 : "T".toList = ['T'] := rfl
  have e3 : ":".toList = [':'] := rfl
  unfold initialLayout at h
  rw [e0, e1, e2, e3] at h
  obtain ⟨v1, st1, w1, hs1, hc1, h⟩ := parseLoop_cons_inv _ _ _ _ _ _ _ h
  obtain ⟨v2, st2, w2, hs2, hc2, h⟩ := parseLoop_cons_inv _ _ _ _ _ _ _ h
  obtain ⟨v3, st3, w3, hs3, hc3, h⟩ := parseLoop_cons_inv _ _ _ _ _ _ _ h
  obtain ⟨v4, st4, w4, hs4, hc4, h⟩ := parseLoop_cons_inv _ _ _ _ _ _ _ h
  obtain ⟨v5, st5, w5, hs5, hc5, h⟩ := parseLoop_cons_inv _ _ _ _ _ _ _ h
  obtain ⟨v6, st6, w6, hs6, hc6, h⟩ := parseLoop_cons_inv _ _ _ _ _ _ _ h
  obtain ⟨v7, st7, w7, hs7, hc7, h⟩ := parseLoop_cons_inv _ _ _ _ _ _ _ h
  obtain ⟨hw7, hst⟩ := parseLoop_nil_inv _ _ _ h
  rw [skip_nil, Option.some.injEq] at hs1 hs7
  subst hs1 hs7 hw7 hst
  have hv2 := skip_char_inv '-' _ _ (by decide) hs2
  have hv3 := skip_char_inv '-' _ _ (by decide) hs3
  have hv4 := skip_char_inv 'T' _ _ (by decide) hs4
  have hv5 := skip_char_inv ':' _ _ (by decide) hs5
  have hv6 := skip_char_inv ':' _ _ (by decide) hs6
  obtain ⟨y, hy, hst1, hval1⟩ := parseChunk_year_inv _ _ _ _ hc1
  obtain ⟨mo, hmo1, hmo2, hst2, hval2⟩ := parseChunk_month_inv _ _ _ _ hc2
  obtain ⟨d, hd, hst3, hval3⟩ := parseChunk_day_inv _ _ _ _ hc3
  obtain ⟨hr, sh, hhr, hsh, hst4, hval4⟩ := parseChunk_hour_inv _ _ _ _ hc4
  obtain ⟨mi, hmi, hst5, hval5⟩ := parseChunk_minute_inv _ _ _ _ hc5
  have hn : st5.nsec = 0 := by rw [hst5, hst4, hst3, hst2, hst1]
  obtain ⟨sc, sep, frac, nsec, hsc, hn0, hn1, hsep, hfrac, hst6, hval6⟩ :=
    parseChunk_second_inv _ _ _ _ (by rw [hn]) (by rw [hn]; decide) hc6
  obtain ⟨east, oh, om, hoh, hom, hst7, hval7⟩ := parseChunk_zone_inv _ _ _ _ hc7
  refine ⟨{ year := y, month := mo, day := d, hour := hr, shortHour := sh, min := mi, sec := sc,
            sep := sep, frac := frac, east := east, offHour := oh, offMin := om }, nsec,
    ?_, hn0, hn1, hy, hmo1, hmo2, hd, hhr, hsh, hmi, hsc, hsep, hfrac, hoh, hom, ?_⟩
  · unfold Stamp.text Stamp.hourText Stamp.fracText Stamp.offsetText
    simp only
    rw [hval1, hv2, hval2, hv3, hval3, hv4, hval4, hv5, hval5, hv6, hval6, hval7]
    simp only [List.append_nil, List.append_assoc, List.cons_append]
  · rw [hst7, hst6, hst5, hst4, hst3, hst2, hst1]
    rfl

theorem parse_inv (lo : Int → Int) (value : List Char) (t : Time)
    (h : parse lo value = some t) : ∃ s : Stamp, s.wellFormed ∧ value = s.text := by
  unfold parse at h
  cases hl : parseLoop initialLayout [] {} value with
  | none => simp [hl] at h
  | some st =>
    simp only [hl] at h
    obtain ⟨s, nsec, hv, hn0, hn1, hy, hm1, hm2, hd, hh, hsh, hmi, hsc, hsep, hfrac, hoh, hom, hst⟩ :=
      parseLoop_inv value st hl
    refine ⟨s, ⟨hy, hm1, hm2, ?_, ?_, hh, hsh, hmi, hsc, hsep, hfrac, hoh, hom⟩, hv⟩
    all_goals
      unfold parseFinish at h
      rw [hst] at h
      have c1 : ¬ ((s.month : Int) < 0) := by omega
      have c2 : ¬ ((s.day : Int) < 0) := by omega
      simp only [c1, c2, if_false, Int.toNat_ofNat] at h
      by_cases hc : ((s.day : Int) < 1 || decide ((s.day : Int) > ((daysIn s.month s.year : Nat) : Int))) = true
      · rw [if_pos hc] at h
        exact absurd h (by simp)
      · simp only [Bool.or_eq_true, decide_eq_true_eq, not_or, not_lt] at hc
        omega

theorem Time_zero_Format (lo : Int → Int) : Time.zero.Format lo = "Mon, Jan  1 00:00" := by
  have h : Time.zero.abs lo = 9223371966579724800 := by
    simp only [Time.abs, Time.zero, Time.unixSec, Location.lookup]
    decide
  unfold Time.Format
  rw [h]
  decide

theorem formatItem_eq (lo : Int → Int) (acc : List Event) (item : CalendarEvent) :
    formatItem lo acc item = acc ++ (formatted lo item).toList := by
  unfold formatItem formatted
  by_cases h : item.Start.DateTime = ""
  · simp [h]
  · simp [h]

theorem foldl_formatItem (lo : Int → Int) (items : List CalendarEvent) :
    ∀ acc, items.foldl (formatItem lo) acc = acc ++ items.filterMap (formatted lo) := by
  induction items with
  | nil => intro acc; simp
  | cons item rest ih =>
    intro acc
    rw [List.foldl_cons, ih, formatItem_eq, List.filterMap_cons]
    cases formatted lo item <;> simp

theorem formatEvents_eq (lo : Int → Int) (items : List CalendarEvent) :
    formatEvents lo items = items.filterMap (formatted lo) := by
  unfold formatEvents
  split_ifs with h
  · rw [List.length_eq_zero.mp h]; rfl
  · rw [foldl_formatItem]; rfl

theorem formatEvents_append (lo : Int → Int) (xs ys : List CalendarEvent) :
    formatEvents lo (xs ++ ys) = formatEvents lo xs ++ formatEvents lo ys := by
  simp only [formatEvents_eq, List.filterMap_append]

theorem formatEvents_length_le (lo : Int → Int) (items : List CalendarEvent) :
    (formatEvents lo items).length ≤ items.length := by
  rw [formatEvents_eq]
  exact List.length_filterMap_le _ _

theorem serve_fst (execute : Welcome → Rendering) (rs : List Request) :
    ∀ w, (serve execute w rs).1 = rs.foldl (fun w r => (handler execute w r).1) w := by
  induction rs with
  | nil => intro w; rfl
  | cons r rest ih =>
    intro w
    rw [serve, List.foldl_cons, ← ih]

theorem handler_fst (execute : Welcome → Rendering) (w : Welcome) (r : Request) :
    (handler execute w r).1 =
      if r.FormValue "name" ≠ "" then { w with Name := r.FormValue "name" } else w := by
  unfold handler
  dsimp only
  split <;> rfl

theorem handler_data (execute : Welcome → Rendering) (w : Welcome) (r : Request) :
    (handler execute w r).2.data = (handler execute w r).1 := by
  unfold handler
  dsimp only
  split <;> rfl

theorem serve_name (execute : Welcome → Rendering) (rs : List Request) :
    ∀ w, (serve execute w rs).1.Name = (latestName rs).getD w.Name := by
  induction rs using List.reverseRecOn with
  | nil => intro w; rfl
  | append_singleton rest r ih =>
    intro w
    rw [serve_fst, List.foldl_append, List.foldl_cons, List.foldl_nil, ← serve_fst, handler_fst]
    unfold latestName at ih ⊢
    rw [List.map_append, List.filter_append]
    by_cases h : r.FormValue "name" = ""
    · simp [h, ih]
    · simp [h]

theorem serve_frame (execute : Welcome → Rendering) (rs : List Request) :
    ∀ w, (serve execute w rs).1.TimeOfDay = w.TimeOfDay ∧ (serve execute w rs).1.Time = w.Time ∧
      (serve execute w rs).1.Events = w.Events := by
  induction rs with
  | nil => intro w; exact ⟨rfl, rfl, rfl⟩
  | cons r rest ih =>
    intro w
    have h := ih (handler execute w r).1
    have e : (serve execute w (r :: rest)).1 = (serve execute (handler execute w r).1 rest).1 := rfl
    rw [e, h.1, h.2.1, h.2.2, handler_fst]
    split_ifs <;> exact ⟨rfl, rfl, rfl⟩

theorem stamp_text_ne (s : Stamp) : String.mk s.text ≠ "" := by
  intro h
  have : s.text = [] := congrArg String.data h
  unfold Stamp.text fourDigits at this
  simp at this

theorem formatItem_text (lo : Int → Int) (evs : List Event) (summary : String) (s : Stamp)
    (hw : s.wellFormed) :
    formatItem lo evs { Summary := summary, Start := { DateTime := String.mk s.text } }
      = evs ++ [{ Summary := summary, Date := displayDate s.year s.month s.day s.hour s.min }] := by
  rw [formatItem_eq]
  unfold formatted
  simp only [stamp_text_ne s, if_false, Option.toList, (Parse_text lo s hw).2]

theorem Parse_ok_inv (lo : Int → Int) (value : String) (h : (Parse lo value).2 = none) :
    ∃ s : Stamp, s.wellFormed ∧ value.toList = s.text := by
  have e : Parse lo value = match parse lo value.toList with
      | some t => (t, none)
      | none => (Time.zero, some .mk) := rfl
  rw [e] at h
  cases hp : parse lo value.toList with
  | none => rw [hp] at h; exact absurd h (by simp)
  | some t => exact parse_inv lo _ t hp

theorem Parse_fail_Format (lo : Int → Int) (value : String) (h : (Parse lo value).2 ≠ none) :
    (Parse lo value).1.Format lo = "Mon, Jan  1 00:00" := by
  have e : Parse lo value = match parse lo value.toList with
      | some t => (t, none)
      | none => (Time.zero, some .mk) := rfl
  rw [e] at h ⊢
  cases hp : parse lo value.toList with
  | none => exact Time_zero_Format lo
  | some t => rw [hp] at h; exact absurd rfl h

theorem main_serving_inv (w : World) (tr : List Effect) (welcome : Welcome)
    (h : main w = (tr, .serving welcome)) :
    ∃ client items, w.listEvents client = some items ∧
      welcome = buildWelcome w.localOffset w.now items ∧
      Effect.listEvents "primary" false true w.now 5 "startTime" ∈ tr := by
  unfold main at h
  cases h1 : w.readFile "credentials.json" with
  | none => simp [h1] at h
  | some b =>
    simp only [h1] at h
    cases h2 : w.configFromJSON b with
    | none => simp [h2] at h
    | some config =>
      simp only [h2] at h
      cases h3 : getClient w config with
      | mk tr1 oc =>
        cases oc with
        | none => simp [h3] at h
        | some client =>
          simp only [h3] at h
          cases h4 : w.calendarNew client with
          | false => simp [h4] at h
          | true =>
            simp only [h4, Bool.not_true, Bool.false_eq_true, if_false] at h
            cases h5 : w.listEvents client with
            | none => simp [h5] at h
            | some items =>
              simp only [h5] at h
              cases h6 : w.parseTemplate with
              | false => simp [h6] at h
              | true =>
                simp only [h6, Bool.not_true, Bool.false_eq_true, if_false, Prod.mk.injEq,
                  Outcome.serving.injEq] at h
                refine ⟨client, items, h5, h.2.symm, ?_⟩
                rw [← h.1]
                split_ifs <;> simp

theorem buildWelcome_Events (lo : Int → Int) (now : Time) (items : List CalendarEvent) :
    (buildWelcome lo now items).Events = formatEvents lo items := rfl

theorem buildWelcome_Name (lo : Int → Int) (now : Time) (items : List CalendarEvent) :
    (buildWelcome lo now items).Name = "Mackenzie" := rfl

theorem buildWelcome_TimeOfDay (lo : Int → Int) (now : Time) (items : List CalendarEvent) :
    (buildWelcome lo now items).TimeOfDay = timeOfDay ((now.Clock lo).1 : Nat) := rfl

theorem getClient_cached (w : World) (config : Config) (tok : Token)
    (h : (tokenFromFile w "token.json").2 = some tok) :
    getClient w config = ([.readFile "token.json"], some { config := config, tok := tok }) := by
  unfold getClient tokenFromFile at *
  cases hr : w.readFile "token.json" with
  | none => simp [hr] at h
  | some content =>
    simp only [hr] at h ⊢
    rw [h]

theorem getClient_fresh (w : World) (config : Config) (tr : List Effect) (client : Client)
    (hn : (tokenFromFile w "token.json").2 = none)
    (h : getClient w config = (tr, some client)) :
    ∃ code, w.scanCode = some code ∧ w.exchange config code = some client.tok ∧
      client.config = config ∧
      tr = [.readFile "token.json", .printAuthURL, .scanAuthCode, .exchangeCode code,
            .println ("Saving credential file to: " ++ "token.json"), .writeToken "token.json" client.tok] := by
  have ht : tokenFromFile w "token.json" = ([.readFile "token.json"], none) := by
    unfold tokenFromFile at hn ⊢
    cases hr : w.readFile "token.json" with
    | none => rfl
    | some content =>
      simp only [hr] at hn ⊢
      rw [hn]
  unfold getClient at h
  simp only [ht] at h
  unfold getTokenFromWeb at h
  cases hs : w.scanCode with
  | none => simp [hs] at h
  | some code =>
    simp only [hs] at h
    cases he : w.exchange config code with
    | none => simp [he] at h
    | some tok =>
      simp only [he] at h
      unfold saveToken at h
      cases hc : w.canCreate "token.json" with
      | false => simp [hc] at h
      | true =>
        simp only [hc, if_true, Prod.mk.injEq, Option.some.injEq] at h
        refine ⟨code, rfl, ?_, ?_, ?_⟩
        · rw [← h.2]
          exact he
        · rw [← h.2]
        · rw [← h.1, ← h.2]
          rfl

theorem formatEvents_length_filter (lo : Int → Int) (items : List CalendarEvent) :
    (formatEvents lo items).length
      = (items.filter fun item => item.Start.DateTime ≠ "").length := by
  rw [formatEvents_eq]
  induction items with
  | nil => rfl
  | cons item rest ih =>
    rw [List.filterMap_cons, List.filter_cons]
    by_cases hd : item.Start.DateTime = ""
    · have hf : formatted lo item = none := by
        unfold formatted
        rw [if_pos hd]
      simp only [hf, hd, ne_eq, not_true_eq_false, decide_False, Bool.false_eq_true, if_false]
      exact ih
    · have hf : formatted lo item
          = some (Event.mk item.Summary ((Parse lo item.Start.DateTime).1.Format lo)) := by
        unfold formatted
        rw [if_neg hd]
      simp only [hf, hd, ne_eq, not_false_eq_true, decide_True, if_true, List.length_cons]
      rw [ih]

/-! ## The claims -/

/-- C1: for every hour `h` with `0 ≤ h < 24` the label computed in `main` is
`morning` exactly when `2 ≤ h < 12`, `afternoon` exactly when `12 ≤ h < 18` and
`evening` for every other hour; hours 2 and 11 give morning, 12 and 17 afternoon,
18, 23, 0 and 1 evening.  The label of the display record is the label of the
hour of `now.Clock()`, which lies in `[0, 24)`. -/
theorem C1_timeOfDay_buckets (h : Int) (h0 : 0 ≤ h) (h24 : h < 24) (lo : Int → Int)
    (now : Time) (items : List CalendarEvent) :
    (buildWelcome lo now items).TimeOfDay = timeOfDay ((now.Clock lo).1 : Nat) ∧
    (now.Clock lo).1 < 24 ∧
    (timeOfDay h = "morning" ↔ 2 ≤ h ∧ h < 12) ∧
    (timeOfDay h = "afternoon" ↔ 12 ≤ h ∧ h < 18) ∧
    (timeOfDay h = "evening" ↔ (18 ≤ h ∧ h < 24) ∨ (0 ≤ h ∧ h < 2)) ∧
    timeOfDay 2 = "morning" ∧ timeOfDay 11 = "morning" ∧
    timeOfDay 12 = "afternoon" ∧ timeOfDay 17 = "afternoon" ∧
    timeOfDay 18 = "evening" ∧ timeOfDay 23 = "evening" ∧
    timeOfDay 0 = "evening" ∧ timeOfDay 1 = "evening" := by
  have n1 : ("afternoon" : String) ≠ "morning" := by decide
  have n2 : ("evening" : String) ≠ "morning" := by decide
  have n3 : ("morning" : String) ≠ "afternoon" := by decide
  have n4 : ("evening" : String) ≠ "afternoon" := by decide
  have n5 : ("morning" : String) ≠ "evening" := by decide
  have n6 : ("afternoon" : String) ≠ "evening" := by decide
  have hclock : (now.Clock lo).1 < 24 := by
    unfold Time.Clock absClock
    have c4 : secondsPerDay = 86400 := rfl
    have c5 : secondsPerHour = 3600 := rfl
    rw [c4, c5]
    dsimp only
    omega
  refine ⟨rfl, hclock, ?_, ?_, ?_, by decide, by decide, by decide, by decide, by decide,
    by decide, by decide, by decide⟩
  all_goals
    unfold timeOfDay
    by_cases a : 2 ≤ h <;> by_cases b : h < 12 <;> by_cases c : 12 ≤ h <;> by_cases d : h < 18 <;>
      simp [a, b, c, d, n1, n2, n3, n4, n5, n6] <;> omega

/-- The hour 9 lies in `[0, 24)` and is labelled `morning`. -/
theorem C1_timeOfDay_buckets_witness :
    (0 : Int) ≤ 9 ∧ (9 : Int) < 24 ∧ timeOfDay 9 = "morning" :=
  ⟨by decide, by decide,
   (C1_timeOfDay_buckets 9 (by decide) (by decide) (fun _ => 0) Time.zero []).2.2.1.mpr
     ⟨by decide, by decide⟩⟩

/-- C2: for every start timestamp that `time.Parse` accepts under the layout
`2006-01-02T15:04:05-07:00`, the timestamp is the text of a date, a time and a
numeric offset, and the formatter appends the event with the date
`Www, Mmm D HH:MM` of the written fields: the abbreviated weekday of the calendar
date, the abbreviated month, the day padded with a space to width 2, and the
two-digit hour and minute; `2024-03-05T09:30:00-05:00` gives `Tue, Mar  5 09:30`. -/
theorem C2_event_date_format (lo : Int → Int) (evs : List Event) (item : CalendarEvent)
    (hvalid : (Parse lo item.Start.DateTime).2 = none) :
    (∃ s : Stamp, s.wellFormed ∧ item.Start.DateTime.toList = s.text ∧
      formatItem lo evs item =
        evs ++ [Event.mk item.Summary (displayDate s.year s.month s.day s.hour s.min)]) ∧
    formatItem lo evs (CalendarEvent.mk item.Summary (EventDateTime.mk "2024-03-05T09:30:00-05:00"))
      = evs ++ [Event.mk item.Summary "Tue, Mar  5 09:30"] := by
  obtain ⟨s, hw, hs⟩ := Parse_ok_inv lo _ hvalid
  constructor
  · refine ⟨s, hw, hs, ?_⟩
    have e : item = CalendarEvent.mk item.Summary (EventDateTime.mk (String.mk s.text)) := by
      rw [← hs]
      rfl
    rw [e]
    exact formatItem_text lo evs item.Summary s hw
  · exact formatItem_text lo evs item.Summary exampleStamp (by decide)

/-- The start `2024-03-05T09:30:00-05:00` is accepted and shown as
`Tue, Mar  5 09:30`. -/
theorem C2_event_date_format_witness :
    (Parse (fun _ => 0) "2024-03-05T09:30:00-05:00").2 = none ∧
    formatItem (fun _ => 0) []
        (CalendarEvent.mk "Standup" (EventDateTime.mk "2024-03-05T09:30:00-05:00"))
      = [Event.mk "Standup" "Tue, Mar  5 09:30"] :=
  ⟨(Parse_text (fun _ => 0) exampleStamp (by decide)).1,
   (C2_event_date_format (fun _ => 0) []
      (CalendarEvent.mk "Standup" (EventDateTime.mk "2024-03-05T09:30:00-05:00"))
      (Parse_text (fun _ => 0) exampleStamp (by decide)).1).2⟩

/-- C3: for every list of raw events the formatted events are, in the order of
the raw list, one event for each raw event whose start `DateTime` is non-empty,
with the raw event's summary; a raw event with an empty start `DateTime` gives
no event. -/
theorem C3_events_kept_in_order (lo : Int → Int) (items : List CalendarEvent) :
    formatEvents lo items =
      (items.filter fun item => item.Start.DateTime ≠ "").map
        (fun item => Event.mk item.Summary ((Parse lo item.Start.DateTime).1.Format lo)) ∧
    (formatEvents lo items).map Event.Summary =
      (items.filter fun item => item.Start.DateTime ≠ "").map CalendarEvent.Summary ∧
    (formatEvents lo items).length =
      (items.filter fun item => item.Start.DateTime ≠ "").length := by
  have key : formatEvents lo items =
      (items.filter fun item => item.Start.DateTime ≠ "").map
        (fun item => Event.mk item.Summary ((Parse lo item.Start.DateTime).1.Format lo)) := by
    rw [formatEvents_eq]
    induction items with
    | nil => rfl
    | cons item rest ih =>
      rw [List.filterMap_cons, List.filter_cons]
      by_cases h : item.Start.DateTime = ""
      · have hf : formatted lo item = none := by
          unfold formatted
          rw [if_pos h]
        simp only [hf, h, ne_eq, not_true_eq_false, decide_False, Bool.false_eq_true, if_false]
        exact ih
      · have hf : formatted lo item
            = some (Event.mk item.Summary ((Parse lo item.Start.DateTime).1.Format lo)) := by
          unfold formatted
          rw [if_neg h]
        simp only [hf, h, ne_eq, not_false_eq_true, decide_True, if_true, List.map_cons, ih]
  refine ⟨key, ?_, ?_⟩
  · rw [key, List.map_map]; rfl
  · rw [key, List.length_map]

/-- C4 as stated fails: the start `tomorrow` does not parse, and the event is
appended with the date `Mon, Jan  1 00:00`, not with the string `tomorrow`. -/
theorem C4_date_is_not_the_original_string :
    (Parse (fun _ => 0) "tomorrow").2 ≠ none ∧
    formatEvents (fun _ => 0) [CalendarEvent.mk "Lunch" (EventDateTime.mk "tomorrow")]
      = [Event.mk "Lunch" "Mon, Jan  1 00:00"] ∧
    ¬ ∃ e ∈ formatEvents (fun _ => 0) [CalendarEvent.mk "Lunch" (EventDateTime.mk "tomorrow")],
        e.Date = "tomorrow" := by
  have h1 : (Parse (fun _ => 0) "tomorrow").2 ≠ none := by decide
  have h2 : formatEvents (fun _ => 0) [CalendarEvent.mk "Lunch" (EventDateTime.mk "tomorrow")]
      = [Event.mk "Lunch" "Mon, Jan  1 00:00"] := by
    rw [formatEvents_eq]
    simp only [List.filterMap_cons, List.filterMap_nil, formatted]
    rw [Parse_fail_Format _ _ h1]
    decide
  refine ⟨h1, h2, ?_⟩
  rw [h2]
  decide

/-- C4, amended: for every raw event whose non-empty start `DateTime` fails to
parse, the batch is not aborted: the events before and after it are formatted
as without it, and the event is still appended, with its summary and with the
date `Mon, Jan  1 00:00`, the rendering of the zero time that `time.Parse`
returns with its error. -/
theorem C4_parse_failure_keeps_event (lo : Int → Int) (before after : List CalendarEvent)
    (item : CalendarEvent) (hne : item.Start.DateTime ≠ "")
    (hfail : (Parse lo item.Start.DateTime).2 ≠ none) :
    formatEvents lo (before ++ item :: after) =
      formatEvents lo before ++ Event.mk item.Summary "Mon, Jan  1 00:00" ::
        formatEvents lo after := by
  have e : before ++ item :: after = before ++ ([item] ++ after) := rfl
  rw [e, formatEvents_append, formatEvents_append]
  have h1 : formatEvents lo [item] = [Event.mk item.Summary "Mon, Jan  1 00:00"] := by
    rw [formatEvents_eq]
    simp only [List.filterMap_cons, List.filterMap_nil, formatted, hne, if_false]
    rw [Parse_fail_Format lo _ hfail]
  rw [h1]
  rfl

/-- A batch of three events whose second start does not parse: all three are
kept, the second with the date of the zero time. -/
theorem C4_parse_failure_keeps_event_witness :
    ("tomorrow" : String) ≠ "" ∧ (Parse (fun _ => 0) "tomorrow").2 ≠ none ∧
    formatEvents (fun _ => 0)
        ([CalendarEvent.mk "Standup" (EventDateTime.mk "2024-03-05T09:30:00-05:00")] ++
          CalendarEvent.mk "Lunch" (EventDateTime.mk "tomorrow") ::
          [CalendarEvent.mk "Review" (EventDateTime.mk "")]) =
      formatEvents (fun _ => 0)
          [CalendarEvent.mk "Standup" (EventDateTime.mk "2024-03-05T09:30:00-05:00")] ++
        Event.mk "Lunch" "Mon, Jan  1 00:00" ::
          formatEvents (fun _ => 0) [CalendarEvent.mk "Review" (EventDateTime.mk "")] :=
  ⟨by decide, by decide,
   C4_parse_failure_keeps_event (fun _ => 0)
     [CalendarEvent.mk "Standup" (EventDateTime.mk "2024-03-05T09:30:00-05:00")]
     [CalendarEvent.mk "Review" (EventDateTime.mk "")]
     (CalendarEvent.mk "Lunch" (EventDateTime.mk "tomorrow")) (by decide) (by decide)⟩

/-- C5 as stated fails: when the list call returns six raw events with a start
time, `main` keeps all six, so the display record holds more than 5 events. -/
theorem C5_six_items_give_six_events :
    main sixItemsWorld = ((main sixItemsWorld).1,
      .serving (buildWelcome sixItemsWorld.localOffset sixItemsWorld.now sixItems)) ∧
    Effect.listEvents "primary" false true sixItemsWorld.now 5 "startTime"
      ∈ (main sixItemsWorld).1 ∧
    (buildWelcome sixItemsWorld.localOffset sixItemsWorld.now sixItems).Events.length = 6 ∧
    ¬ (buildWelcome sixItemsWorld.localOffset sixItemsWorld.now sixItems).Events.length ≤ 5 := by
  have hlen : (buildWelcome sixItemsWorld.localOffset sixItemsWorld.now sixItems).Events.length
      = 6 := by
    rw [buildWelcome_Events, formatEvents_eq]
    decide
  refine ⟨by decide, by decide, hlen, ?_⟩
  rw [hlen]
  decide

/-- C5, amended: the list call is issued with a cap of 5 results, and for every
list of raw events it returns the display record holds one event for each raw
event with a non-empty start `DateTime`, so at most as many events as the call
returned and at most 5 whenever the call returned at most 5; `main` does not
truncate the list, and a request never changes the events. -/
theorem C5_events_bounded_by_returned_items (w : World) (tr : List Effect)
    (welcome : Welcome) (h : main w = (tr, .serving welcome)) :
    Effect.listEvents "primary" false true w.now 5 "startTime" ∈ tr ∧
    ∃ client items, w.listEvents client = some items ∧
      welcome.Events.length = (items.filter fun item => item.Start.DateTime ≠ "").length ∧
      welcome.Events.length ≤ items.length ∧
      (items.length ≤ 5 → welcome.Events.length ≤ 5) ∧
      ∀ (execute : Welcome → Rendering) (rs : List Request),
        (serve execute welcome rs).1.Events = welcome.Events := by
  obtain ⟨client, items, hl, hw, hq⟩ := main_serving_inv w tr welcome h
  have hle : welcome.Events.length ≤ items.length := by
    rw [hw, buildWelcome_Events]
    exact formatEvents_length_le _ _
  have hfil : welcome.Events.length
      = (items.filter fun item => item.Start.DateTime ≠ "").length := by
    rw [hw, buildWelcome_Events]
    exact formatEvents_length_filter _ _
  refine ⟨hq, client, items, hl, hfil, hle, fun h5 => le_trans hle h5, ?_⟩
  intro execute rs
  exact (serve_frame execute rs welcome).2.2

/-- In a start where the calendar returns five raw events with a start time the
display record holds five events. -/
theorem C5_events_bounded_by_returned_items_witness :
    main fiveItemsWorld = ((main fiveItemsWorld).1,
      .serving (buildWelcome fiveItemsWorld.localOffset fiveItemsWorld.now (sixItems.take 5))) ∧
    (buildWelcome fiveItemsWorld.localOffset fiveItemsWorld.now (sixItems.take 5)).Events.length
      = 5 ∧
    ∃ client items, fiveItemsWorld.listEvents client = some items ∧
      (buildWelcome fiveItemsWorld.localOffset fiveItemsWorld.now
          (sixItems.take 5)).Events.length
        = (items.filter fun item => item.Start.DateTime ≠ "").length ∧
      (buildWelcome fiveItemsWorld.localOffset fiveItemsWorld.now
          (sixItems.take 5)).Events.length ≤ items.length ∧
      (items.length ≤ 5 →
        (buildWelcome fiveItemsWorld.localOffset fiveItemsWorld.now
          (sixItems.take 5)).Events.length ≤ 5) ∧
      ∀ (execute : Welcome → Rendering) (rs : List Request),
        (serve execute (buildWelcome fiveItemsWorld.localOffset fiveItemsWorld.now
            (sixItems.take 5)) rs).1.Events
          = (buildWelcome fiveItemsWorld.localOffset fiveItemsWorld.now
              (sixItems.take 5)).Events :=
  have hrun : main fiveItemsWorld = ((main fiveItemsWorld).1,
      .serving (buildWelcome fiveItemsWorld.localOffset fiveItemsWorld.now
        (sixItems.take 5))) := by
    decide
  have hlen : (buildWelcome fiveItemsWorld.localOffset fiveItemsWorld.now
      (sixItems.take 5)).Events.length = 5 := by
    rw [buildWelcome_Events, formatEvents_eq]
    decide
  ⟨hrun, hlen, (C5_events_bounded_by_returned_items fiveItemsWorld _ _ hrun).2⟩

/-- C6: for every sequence of requests to the root route after startup, the name
handed to the template for a request is the value of the most recent non-empty
`name` parameter among that request and the earlier ones, or `Mackenzie` when
there is none; a request stores its `name` value when that is non-empty and
leaves the stored name as it was otherwise. -/
theorem C6_name_is_latest_nonempty (execute : Welcome → Rendering)
    (lo : Int → Int) (now : Time) (items : List CalendarEvent) (rs : List Request) (r : Request)
    (w : Welcome) :
    (handler execute (serve execute (buildWelcome lo now items) rs).1 r).2.data.Name
      = (latestName (rs ++ [r])).getD "Mackenzie" ∧
    (handler execute w r).1.Name
      = (if r.FormValue "name" ≠ "" then r.FormValue "name" else w.Name) ∧
    (handler execute w r).2.data.Name = (handler execute w r).1.Name := by
  refine ⟨?_, ?_, by rw [handler_data]⟩
  · have h := serve_name execute (rs ++ [r]) (buildWelcome lo now items)
    rw [buildWelcome_Name, serve_fst, List.foldl_append, List.foldl_cons, List.foldl_nil,
      ← serve_fst] at h
    rw [handler_data, h]
  · rw [handler_fst]
    split_ifs <;> rfl

/-- C7: for every request handled by the root route, whatever its `name`
parameter, the fields `TimeOfDay`, `Time` and `Events` of the display record are
the same after the request as before, in the record handed to the template too;
after any sequence of requests `TimeOfDay` is still the label of the startup
hour. -/
theorem C7_request_changes_only_name (execute : Welcome → Rendering)
    (w : Welcome) (r : Request) (lo : Int → Int) (now : Time) (items : List CalendarEvent)
    (rs : List Request) :
    (handler execute w r).1.TimeOfDay = w.TimeOfDay ∧
    (handler execute w r).1.Time = w.Time ∧
    (handler execute w r).1.Events = w.Events ∧
    (handler execute w r).2.data.TimeOfDay = w.TimeOfDay ∧
    (handler execute w r).2.data.Time = w.Time ∧
    (handler execute w r).2.data.Events = w.Events ∧
    (serve execute (buildWelcome lo now items) rs).1.TimeOfDay
      = timeOfDay ((now.Clock lo).1 : Nat) ∧
    (serve execute (buildWelcome lo now items) rs).1.Time = now.Format lo ∧
    (serve execute (buildWelcome lo now items) rs).1.Events = formatEvents lo items := by
  have h := serve_frame execute rs (buildWelcome lo now items)
  have hf : (handler execute w r).1.TimeOfDay = w.TimeOfDay ∧
      (handler execute w r).1.Time = w.Time ∧ (handler execute w r).1.Events = w.Events := by
    rw [handler_fst]
    split_ifs <;> exact ⟨rfl, rfl, rfl⟩
  rw [handler_data]
  exact ⟨hf.1, hf.2.1, hf.2.2, hf.1, hf.2.1, hf.2.2, h.1, h.2.1, h.2.2⟩

/-- C8: when `getClient` returns a client, then either reading and parsing
`token.json` succeeded, the client is built with exactly the cached token,
whatever its expiry, and the token file is not written; or reading or parsing
failed, the client is built with the token of the web flow, and that token is
written to `token.json` as the last step before the return. The token file is
written if and only if the token was freshly obtained. -/
theorem C8_token_cached_or_fresh (w : World) (config : Config) (tr : List Effect)
    (client : Client) (h : getClient w config = (tr, some client)) :
    client.config = config ∧
    (∀ tok, (tokenFromFile w "token.json").2 = some tok →
      client.tok = tok ∧ tr = [.readFile "token.json"]) ∧
    ((tokenFromFile w "token.json").2 = none →
      ∃ code, w.scanCode = some code ∧ w.exchange config code = some client.tok ∧
        tr = [.readFile "token.json", .printAuthURL, .scanAuthCode, .exchangeCode code,
              .println ("Saving credential file to: " ++ "token.json"), .writeToken "token.json" client.tok]) ∧
    ((∃ path tok, Effect.writeToken path tok ∈ tr) ↔
      (tokenFromFile w "token.json").2 = none) := by
  cases ht : (tokenFromFile w "token.json").2 with
  | some tok =>
    have hc := getClient_cached w config tok ht
    rw [hc] at h
    simp only [Prod.mk.injEq, Option.some.injEq] at h
    refine ⟨by rw [← h.2], ?_, ?_, ?_⟩
    · intro tok' htok'
      simp only [Option.some.injEq] at htok'
      exact ⟨by rw [← h.2, ← htok'], h.1.symm⟩
    · intro hn
      exact absurd hn (by simp)
    · rw [← h.1]
      simp
  | none =>
    obtain ⟨code, hs, he, hcfg, htr⟩ := getClient_fresh w config tr client ht h
    refine ⟨hcfg, ?_, ?_, ?_⟩
    · intro tok htok
      exact absurd htok (by simp)
    · intro _
      exact ⟨code, hs, he, htr⟩
    · rw [htr]
      simp

/-- With `token.json` present the cached, expired token is used and nothing is
written; on a first start the token of the web flow is used and written. -/
theorem C8_token_cached_or_fresh_witness :
    getClient exampleWorld (Config.mk "secret")
      = ([.readFile "token.json"], some (Client.mk (Config.mk "secret") exampleToken)) ∧
    getClient firstRunWorld (Config.mk "secret")
      = ([.readFile "token.json", .printAuthURL, .scanAuthCode, .exchangeCode "4/code",
          .println ("Saving credential file to: " ++ "token.json"),
          .writeToken "token.json" (Token.mk "4/code" "Bearer" "fresh" 3600)],
         some (Client.mk (Config.mk "secret") (Token.mk "4/code" "Bearer" "fresh" 3600))) ∧
    (Client.mk (Config.mk "secret") exampleToken).tok = exampleToken ∧
    ((∃ path tok, Effect.writeToken path tok ∈
        [Effect.readFile "token.json", .printAuthURL, .scanAuthCode, .exchangeCode "4/code",
          .println ("Saving credential file to: " ++ "token.json"),
          .writeToken "token.json" (Token.mk "4/code" "Bearer" "fresh" 3600)]) ↔
      (tokenFromFile firstRunWorld "token.json").2 = none) :=
  ⟨by decide, by decide,
   ((C8_token_cached_or_fresh exampleWorld (Config.mk "secret") _ _
      (by decide : getClient exampleWorld (Config.mk "secret")
        = ([.readFile "token.json"], some (Client.mk (Config.mk "secret") exampleToken)))).2.1
      exampleToken (by decide)).1,
   (C8_token_cached_or_fresh firstRunWorld (Config.mk "secret") _ _
      (by decide : getClient firstRunWorld (Config.mk "secret")
        = ([.readFile "token.json", .printAuthURL, .scanAuthCode, .exchangeCode "4/code",
            .println ("Saving credential file to: " ++ "token.json"),
            .writeToken "token.json" (Token.mk "4/code" "Bearer" "fresh" 3600)],
           some (Client.mk (Config.mk "secret") (Token.mk "4/code" "Bearer" "fresh" 3600))))).2.2.2⟩

/-- C9: if reading `credentials.json` fails, `main` ends with the fatal
diagnostic right after the failed read: no token is read or requested, no
calendar query is issued, the template is not loaded and the server never
listens on its port. -/
theorem C9_missing_credentials_is_fatal (w : World) (h : w.readFile "credentials.json" = none) :
    main w = ([.readFile "credentials.json", .fatal "Unable to read client secret file"], .fatal) ∧
    Effect.readFile "token.json" ∉ (main w).1 ∧
    Effect.printAuthURL ∉ (main w).1 ∧
    Effect.scanAuthCode ∉ (main w).1 ∧
    (∀ code, Effect.exchangeCode code ∉ (main w).1) ∧
    (∀ path tok, Effect.writeToken path tok ∉ (main w).1) ∧
    (∀ id del single tmin n order, Effect.listEvents id del single tmin n order ∉ (main w).1) ∧
    (∀ addr, Effect.listenAndServe addr ∉ (main w).1) := by
  have hm : main w
      = ([.readFile "credentials.json", .fatal "Unable to read client secret file"], .fatal) := by
    unfold main
    simp only [h]
  rw [hm]
  refine ⟨rfl, by decide, by decide, by decide, ?_, ?_, ?_, ?_⟩
  · intro code; simp
  · intro path tok; simp
  · intro id del single tmin n order; simp
  · intro addr; simp

/-- Without the client-secret file the start ends after the failed read. -/
theorem C9_missing_credentials_is_fatal_witness :
    noCredentialsWorld.readFile "credentials.json" = none ∧
    main noCredentialsWorld
      = ([.readFile "credentials.json", .fatal "Unable to read client secret file"], .fatal) :=
  ⟨rfl, (C9_missing_credentials_is_fatal noCredentialsWorld rfl).1⟩

/-- C10: two well-formed timestamps with the same date and time fields that
differ only in the numeric offset share the text before the offset, both are
accepted by `time.Parse`, and the formatter gives both the same date, whatever
the local zone of the server: the display form of the written month, day, hour
and minute, with the weekday of the written date. -/
theorem C10_offset_does_not_change_date (lo1 lo2 : Int → Int) (evs : List Event)
    (summary : String) (s1 s2 : Stamp) (h1 : s1.wellFormed) (h2 : s2.wellFormed)
    (hsame : s2 = { s1 with east := s2.east, offHour := s2.offHour, offMin := s2.offMin }) :
    (∃ p, s1.text = p ++ s1.offsetText ∧ s2.text = p ++ s2.offsetText) ∧
    (Parse lo1 (String.mk s1.text)).2 = none ∧ (Parse lo2 (String.mk s2.text)).2 = none ∧
    formatItem lo1 evs (CalendarEvent.mk summary (EventDateTime.mk (String.mk s1.text)))
      = evs ++ [Event.mk summary (displayDate s1.year s1.month s1.day s1.hour s1.min)] ∧
    formatItem lo2 evs (CalendarEvent.mk summary (EventDateTime.mk (String.mk s2.text)))
      = evs ++ [Event.mk summary (displayDate s1.year s1.month s1.day s1.hour s1.min)] ∧
    formatItem lo1 evs (CalendarEvent.mk summary (EventDateTime.mk (String.mk s1.text)))
      = formatItem lo2 evs (CalendarEvent.mk summary (EventDateTime.mk (String.mk s2.text))) := by
  have f1 := formatItem_text lo1 evs summary s1 h1
  have f2 := formatItem_text lo2 evs summary s2 h2
  have e : displayDate s2.year s2.month s2.day s2.hour s2.min
      = displayDate s1.year s1.month s1.day s1.hour s1.min := by
    rw [hsame]
  rw [e] at f2
  refine ⟨?_, (Parse_text lo1 s1 h1).1, (Parse_text lo2 s2 h2).1, f1, f2, by rw [f1, f2]⟩
  refine ⟨fourDigits s1.year ++ '-' :: (twoDigits s1.month ++ '-' :: (twoDigits s1.day ++ 'T' ::
    (s1.hourText ++ ':' :: (twoDigits s1.min ++ ':' :: (twoDigits s1.sec ++ s1.fracText))))), ?_, ?_⟩
  · unfold Stamp.text
    simp only [List.append_assoc, List.cons_append]
  · rw [hsame]
    unfold Stamp.text Stamp.hourText Stamp.fracText
    simp only [List.append_assoc, List.cons_append]

/-- The timestamps `2024-03-05T09:30:00-05:00` and `2024-03-05T09:30:00+09:30`
are both shown as `Tue, Mar  5 09:30`, on servers in different zones. -/
theorem C10_offset_does_not_change_date_witness :
    exampleStamp.wellFormed ∧ exampleStampEast.wellFormed ∧
    formatItem (fun _ => 0) []
        (CalendarEvent.mk "Standup" (EventDateTime.mk "2024-03-05T09:30:00-05:00"))
      = [Event.mk "Standup" "Tue, Mar  5 09:30"] ∧
    formatItem (fun _ => 34200) []
        (CalendarEvent.mk "Standup" (EventDateTime.mk "2024-03-05T09:30:00+09:30"))
      = [Event.mk "Standup" "Tue, Mar  5 09:30"] :=
  ⟨by decide, by decide,
   (C10_offset_does_not_change_date (fun _ => 0) (fun _ => 34200) [] "Standup" exampleStamp
      exampleStampEast (by decide) (by decide) rfl).2.2.2.1,
   (C10_offset_does_not_change_date (fun _ => 0) (fun _ => 34200) [] "Standup" exampleStamp
      exampleStampEast (by decide) (by decide) rfl).2.2.2.2.1⟩

end Homepage
